import Mathlib

/-!
Verification development for the `wheel` ECS (entity-component-system) engine.

The repository ships two slightly different generations of the engine:
the header `ecs.hpp` caches each component's dense index inside the
entity registry (`entity2components_ : Entity -> map<ComponentID, size_t>`),
while `ecs.cpp`, `component_container.hpp` and `sparse_set.hpp` form a
mutually consistent newer variant in which the registry keeps only the
set of component ids per entity (`entity_components_`) and each
`ComponentContainer<T>` owns a `SparseSet<Entity>` index next to its
packed `std::vector<T>` of values.  This development embeds the
consistent newer variant (`ecs.cpp` + `component_container.hpp` +
`sparse_set.hpp`); the template member bodies that exist only in the
header (`add_component`, the event-map functions, `add_system`, ...) are
translated onto that data model, keeping their control flow (the
`operator[]` default-inserts, the duplicate guards, the `emplace`
semantics) exactly as written in the header.

Machine integers: `Entity` is `uint32_t` in the source; entity handles
are modelled as `Nat`, with the generator increment taken modulo `2^32`
where the source increments a `uint32_t`.  `size_t` index arithmetic is
modelled as `Nat` (the `-1` invalid marker of `SparseSet::get_index`
becomes `2^64 - 1`).  `std::unordered_map`s are modelled as functions
into `Option`, except for the entity registry, which is an association
list so that `count_entities` (the map's `size()`) stays computable.
-/

namespace WheelECS

abbrev Entity := Nat
abbrev CID := Nat
abbrev EID := Nat
abbrev SID := Nat

def NullEntity : Entity := 4294967295

/-- Pointwise update of a function-modelled `std::unordered_map`. -/
def fupd {α : Type} (f : Nat → Option α) (k : Nat) (v : Option α) : Nat → Option α :=
  fun x => if x = k then v else f x

/-! ### SparseSet (`sparse_set.hpp`)

`dense_` is the packed vector of keys; `sparse_` maps a key to its dense
index (an `unordered_map`, modelled as a function into `Option Nat`). -/

structure SparseSet where
  dense : List Entity
  sparse : Entity → Option Nat

namespace SparseSet

def empty : SparseSet := ⟨[], fun _ => none⟩

/-- Source: `add(val)` — `dense_.emplace_back(val); sparse_[val] = dense_.size() - 1;`. -/
def add (val : Entity) (s : SparseSet) : SparseSet :=
  { dense := s.dense ++ [val]
    sparse := fupd s.sparse val (some s.dense.length) }

/-- Source: `remove(val)` — absent: no-op; otherwise move `dense_.back()` into
`val`'s slot (when distinct), repoint its sparse entry, pop the back and
erase `val`.  `dense_.back()` on an empty vector is undefined in the
source; the model reads `getLastD` there, which the well-formedness
invariant makes unreachable. -/
def remove (val : Entity) (s : SparseSet) : SparseSet :=
  match s.sparse val with
  | none => s
  | some idx =>
    let bk := s.dense.getLastD val
    let dense1 := if val = bk then s.dense else s.dense.set idx bk
    let sparse1 := if val = bk then s.sparse else fupd s.sparse bk (some idx)
    { dense := dense1.dropLast
      sparse := fupd sparse1 val none }

/-- Source: `has(val)` — `sparse_.count(val)`. -/
def has (val : Entity) (s : SparseSet) : Bool :=
  (s.sparse val).isSome

/-- Source: `get_index(val)` — returns `size_t(-1)` when absent. -/
def get_index (val : Entity) (s : SparseSet) : Nat :=
  match s.sparse val with
  | some i => i
  | none => 18446744073709551615

/-- Bijection invariant of the sparse/dense pair: the sparse map and the
dense array are mutually inverse. -/
def WF (s : SparseSet) : Prop :=
  (∀ k i, s.sparse k = some i → s.dense[i]? = some k) ∧
  (∀ i k, s.dense[i]? = some k → s.sparse k = some i)

end SparseSet

/-! ### ComponentContainer (`component_container.hpp`)

One store per component type: a `SparseSet` of entities next to the
packed `std::vector` of payload values; slot `i` of `components_` holds
the value of the entity at slot `i` of `entities_.dense`. -/

structure Container (V : Type) where
  entities_ : SparseSet
  components_ : List V

namespace Container

variable {V : Type}

def empty : Container V := ⟨SparseSet.empty, []⟩

/-- Source: `add(entity, component)` — `components_.emplace_back(component);
entities_.add(entity);`. -/
def add (e : Entity) (v : V) (c : Container V) : Container V :=
  { entities_ := SparseSet.add e c.entities_
    components_ := c.components_ ++ [v] }

/-- Source: `has(entity)`. -/
def has (e : Entity) (c : Container V) : Bool :=
  SparseSet.has e c.entities_

/-- Source: `size()`. -/
def size (c : Container V) : Nat :=
  c.components_.length

/-- Source: `get(entity)` — `components_[entities_.get_index(entity)]`, a
reference with the precondition that the entity holds this component;
the out-of-range read on a missing entity is modelled as `none`. -/
def get? (e : Entity) (c : Container V) : Option V :=
  match c.entities_.sparse e with
  | some idx => c.components_[idx]?
  | none => none

/-- Source: `remove(entity)` — absent: no-op; otherwise read the dense
index, remove the entity from the sparse set, move `components_.back()`
into the freed slot when it was not the last one, and pop the back.
`components_.back()` on an empty vector is undefined in the source; the
model skips the move there (unreachable under the invariant). -/
def remove (e : Entity) (c : Container V) : Container V :=
  if has e c = false then c
  else
    let idx := SparseSet.get_index e c.entities_
    let ents := SparseSet.remove e c.entities_
    let comps :=
      match c.components_.getLast? with
      | some bk =>
        if idx < c.components_.length - 1 then c.components_.set idx bk else c.components_
      | none => c.components_
    { entities_ := ents, components_ := comps.dropLast }

/-- Source: `copy(src, dst)` — no-op when `src` lacks the component, else
`add(dst, get(src))`.  The unreachable broken-index read of `get` is
modelled as a no-op. -/
def copy (src dst : Entity) (c : Container V) : Container V :=
  if has src c = false then c
  else
    match get? src c with
    | some v => add dst v c
    | none => c

/-- Store invariant: the sparse/dense pair is well formed and the packed
value vector runs in lockstep with the dense key vector. -/
def WF (c : Container V) : Prop :=
  SparseSet.WF c.entities_ ∧ c.components_.length = c.entities_.dense.length

end Container

/-! ### Entity registry and ECS state (`ecs.hpp` declarations, `ecs.cpp` bodies)

`entity_components_ : unordered_map<Entity, unordered_set<ComponentID>>`
is modelled as an association list (sets as duplicate-free lists) so the
map's `size()` stays computable; every other `unordered_map` member is a
function into `Option`.  System callables (`std::function<void()>`) are
user code outside the sources; `update` takes their meaning as an
explicit parameter.  The `delayed_functions_` closures are produced only
by the pulse mechanism and are kept defunctionalized as the
(entity, component-id, value) triple each closure captures. -/

abbrev Registry := List (Entity × List CID)

def lookupEC : Registry → Entity → Option (List CID)
  | [], _ => none
  | p :: l, e => if p.1 = e then some p.2 else lookupEC l e

/-- Replace the value at a present key, or append the new entry
(`operator[]` assignment / `insert_or_assign`). -/
def setEC : Registry → Entity → List CID → Registry
  | [], e, cids => [(e, cids)]
  | p :: l, e, cids => if p.1 = e then (e, cids) :: l else p :: setEC l e cids

/-- Plain `operator[]` read: insert an empty set only when absent. -/
def default_insert (l : Registry) (e : Entity) : Registry :=
  if (lookupEC l e).isSome then l else l ++ [(e, [])]

/-- The set insert of `unordered_set<ComponentID>::emplace`. -/
def insertCID (cids : List CID) (cid : CID) : List CID :=
  if cids.contains cid then cids else cids ++ [cid]

structure SystemInfo where
  active : Bool

structure State (V E : Type) where
  entity_components_ : Registry
  cid2containers_ : CID → Option (Container V)
  systems_ : List SID
  system_infos_map_ : SID → Option SystemInfo
  current_events_map_ : EID → Option (List E)
  next_events_map_ : EID → Option (List E)
  current_entity_events_ : List (Entity × CID)
  next_entity_events_ : List (Entity × CID)
  delayed_functions_ : List (Entity × CID × V)
  next_entity_ : Nat

variable {V E : Type}

/-- Fresh ECS instance; `EntityGenerator::next_entity_` starts at 1. -/
def emptyState : State V E :=
  { entity_components_ := []
    cid2containers_ := fun _ => none
    systems_ := []
    system_infos_map_ := fun _ => none
    current_events_map_ := fun _ => none
    next_events_map_ := fun _ => none
    current_entity_events_ := []
    next_entity_events_ := []
    delayed_functions_ := []
    next_entity_ := 1 }

/-- Source: `has_entity(entity)` — `entity_components_.count(entity)`. -/
def has_entity (e : Entity) (s : State V E) : Bool :=
  (lookupEC s.entity_components_ e).isSome

/-- Source: `count_entities()` — `entity_components_.size()`. -/
def count_entities (s : State V E) : Nat :=
  s.entity_components_.length

/-- Source: `has_component<T>(entity)` / `has_components` — the entity is
registered and the component id sits in its tag set. -/
def has_component (e : Entity) (cid : CID) (s : State V E) : Bool :=
  match lookupEC s.entity_components_ e with
  | some cids => cids.contains cid
  | none => false

/-- Source: `ECS::add_component(entity, component_id, component)` (header,
lines 417-430): `entity2components_[entity]` default-inserts the registry
record; bail out if the id is already attached; lazily create the store;
append the value and index the entity; record the id in the entity's
set. -/
def add_component (e : Entity) (cid : CID) (v : V) (s : State V E) : State V E :=
  let cids := (lookupEC s.entity_components_ e).getD []
  let reg0 := default_insert s.entity_components_ e
  if cids.contains cid then
    { s with entity_components_ := reg0 }
  else
    let c := (s.cid2containers_ cid).getD Container.empty
    { s with
      entity_components_ := setEC reg0 e (cids ++ [cid])
      cid2containers_ := fupd s.cid2containers_ cid (some (Container.add e v c)) }

/-- Source: `ECS::remove_component_(entity, cid)` (`ecs.cpp` lines
101-122): missing entity or missing id are silent no-ops; otherwise the
store (when present) swap-removes the value and the id leaves the
entity's set. -/
def remove_component_ (e : Entity) (cid : CID) (s : State V E) : State V E :=
  match lookupEC s.entity_components_ e with
  | none => s
  | some cids =>
    if cids.contains cid then
      let s1 :=
        match s.cid2containers_ cid with
        | some c =>
          { s with cid2containers_ := fupd s.cid2containers_ cid (some (Container.remove e c)) }
        | none => s
      { s1 with entity_components_ := setEC s1.entity_components_ e (cids.erase cid) }
    else s

/-- Component read through the store's sparse index (the cpp variant's
`ComponentContainer::get`; the header caches the same index in the
registry, which under the store invariant yields the same slot). -/
def get_component? (e : Entity) (cid : CID) (s : State V E) : Option V :=
  match s.cid2containers_ cid with
  | some c => Container.get? e c
  | none => none

/-- Model of writing through the mutable reference returned by
`get_component<T>(entity)`: overwrite the slot the store's index points
at (no-op when the store or the entity is absent, where the source read
would be a contract violation). -/
def write_component (e : Entity) (cid : CID) (w : V) (s : State V E) : State V E :=
  match s.cid2containers_ cid with
  | some c =>
    { s with
      cid2containers_ := fupd s.cid2containers_ cid (some
        { c with components_ :=
            match c.entities_.sparse e with
            | some idx => c.components_.set idx w
            | none => c.components_ }) }
  | none => s

/-- Source: `ECS::copy_component_(src, dst, cid)` (`ecs.cpp` lines
96-99): record the id against `dst` (`entity_components_.at(dst)` throws
when `dst` is unregistered — callers register it first; modelled as a
skip) and ask the store to copy the value (`cid2containers_.at(cid)`
likewise). -/
def copy_component_ (src dst : Entity) (cid : CID) (s : State V E) : State V E :=
  let reg :=
    match lookupEC s.entity_components_ dst with
    | some cids => setEC s.entity_components_ dst (insertCID cids cid)
    | none => s.entity_components_
  match s.cid2containers_ cid with
  | some c =>
    { s with
      entity_components_ := reg
      cid2containers_ := fupd s.cid2containers_ cid (some (Container.copy src dst c)) }
  | none => { s with entity_components_ := reg }

/-- Source: `EntityGenerator::generate()` — `next_entity_++` on a
`uint32_t`, modelled as explicit state. -/
def generate (s : State V E) : Entity × State V E :=
  (s.next_entity_, { s with next_entity_ := (s.next_entity_ + 1) % 4294967296 })

/-- Source: `ECS::copy_entity(entity)` (`ecs.cpp` lines 25-36): dead
source yields `NullEntity` untouched; otherwise allocate a fresh handle,
register it with an empty set, and copy every component of the source. -/
def copy_entity (e : Entity) (s : State V E) : Entity × State V E :=
  if has_entity e s = false then (NullEntity, s)
  else
    let p := generate s
    let s2 := { p.2 with entity_components_ := setEC p.2.entity_components_ p.1 [] }
    let cids := (lookupEC s.entity_components_ e).getD []
    (p.1, cids.foldl (fun acc cid => copy_component_ e p.1 cid acc) s2)

/-- Source: `ECS::add_entity(entity, components...)` (header, lines
181-191), component-free: bump the generator past the handle and
default-insert the registry record. -/
def add_entity_at (e : Entity) (s : State V E) : State V E :=
  let s1 := { s with next_entity_ := max s.next_entity_ ((e + 1) % 4294967296) }
  if (lookupEC s1.entity_components_ e).isSome then s1
  else { s1 with entity_components_ := s1.entity_components_ ++ [(e, [])] }

/-- Source: `ECS::add_entity(components...)` (header, lines 176-179) —
generate a fresh handle, then register it. -/
def add_entity (s : State V E) : Entity × State V E :=
  let p := generate s
  (p.1, add_entity_at p.1 p.2)

/-- Source: `ECS::add_event(event)` (header, lines 396-399) — append to
the next-frame buffer, lazily creating it. -/
def add_event (eid : EID) (v : E) (s : State V E) : State V E :=
  { s with
    next_events_map_ := fupd s.next_events_map_ eid
      (some ((s.next_events_map_ eid).getD [] ++ [v])) }

/-- Source: `ECS::has_event()` (header, lines 406-409) —
`current_frame_events_map_.count(typeid(EventType))`. -/
def has_event (eid : EID) (s : State V E) : Bool :=
  (s.current_events_map_ eid).isSome

/-- Source: `ECS::get_events()` (header, lines 411-415) —
`current_frame_events_map_[typeid(EventType)]` default-inserts an empty
buffer, then yields a view of it; returns the yielded buffer together
with the mutated state. -/
def get_events (eid : EID) (s : State V E) : List E × State V E :=
  let buf := (s.current_events_map_ eid).getD []
  (buf, { s with current_events_map_ := fupd s.current_events_map_ eid (some buf) })

/-- Source: `ECS::add_system<T>()` (header, lines 341-349) —
`system_infos_map_.emplace(id, ...)` inserts only when the id is new,
but `systems_.emplace_back(id)` appends unconditionally. -/
def add_system (id : SID) (s : State V E) : State V E :=
  { s with
    system_infos_map_ :=
      if (s.system_infos_map_ id).isSome then s.system_infos_map_
      else fupd s.system_infos_map_ id (some { active := true })
    systems_ := s.systems_ ++ [id] }

/-- Number of invocations `update` performs for a given system id: one
per occurrence in the ordered list whose record is active (`ecs.cpp`
lines 13-18). -/
def scheduled_runs (id : SID) (s : State V E) : Nat :=
  s.systems_.countP (fun i =>
    i == id &&
      match s.system_infos_map_ i with
      | some info => info.active
      | none => false)

/-- Modelled from the spec: `add_entity_event(entity, event)` is called
by the tests but its body is not among the sources.  Per the spec
(sections 3, 4.5 and 4.6) it records the (entity, component-id) pair in
the next-tick pulse list and queues a deferred attach action, realized
at the start of the next `update()`. -/
def add_entity_event (e : Entity) (cid : CID) (v : V) (s : State V E) : State V E :=
  { s with
    next_entity_events_ := s.next_entity_events_ ++ [(e, cid)]
    delayed_functions_ := s.delayed_functions_ ++ [(e, cid, v)] }

/-- Modelled from the spec: one queued deferred attach action — an
ordinary component addition, skipped silently if the entity no longer
exists by the boundary. -/
def apply_delayed (s : State V E) (df : Entity × CID × V) : State V E :=
  if has_entity df.1 s then add_component df.1 df.2.1 df.2.2 s else s

/-- Source: `ECS::update` (`ecs.cpp` lines 6-11) — promote the event
buffers and the pulse record list (`std::move` leaves the sources
empty), then run and clear the deferred functions. -/
def update_begin (s : State V E) : State V E :=
  let s1 := { s with
    current_events_map_ := s.next_events_map_
    next_events_map_ := fun _ => none
    current_entity_events_ := s.next_entity_events_
    next_entity_events_ := [] }
  let s2 := s1.delayed_functions_.foldl apply_delayed s1
  { s2 with delayed_functions_ := [] }

/-- Source: `ECS::update` (`ecs.cpp` lines 13-18) — invoke each
registered system in registration order when its record is active.
System bodies are user-supplied callables; `sem` gives their meaning. -/
def run_systems (sem : SID → State V E → State V E) (s : State V E) : State V E :=
  s.systems_.foldl (fun acc id =>
    match acc.system_infos_map_ id with
    | some info => if info.active then sem id acc else acc
    | none => acc) s

/-- Source: `ECS::update` (`ecs.cpp` lines 20-22) — detach every pulse
component recorded for the current tick. -/
def update_end (s : State V E) : State V E :=
  s.current_entity_events_.foldl (fun acc p => remove_component_ p.1 p.2 acc) s

/-- Source: `ECS::update` — one full tick. -/
def update (sem : SID → State V E → State V E) (s : State V E) : State V E :=
  update_end (run_systems sem (update_begin s))

/-- Duplicate-freedom of every tag set (the `unordered_set` invariant). -/
def RegNodup (s : State V E) : Prop :=
  ∀ e cids, lookupEC s.entity_components_ e = some cids → cids.Nodup

/-! ### ECS state invariant (spec section 3: registry/store coherence) -/

/-- Per-store invariant across the whole store map. -/
def ConsWF (s : State V E) : Prop :=
  ∀ cid c, s.cid2containers_ cid = some c → Container.WF c

/-- A tag in an entity's set is indexed by that tag's store. -/
def RegToCon (s : State V E) : Prop :=
  ∀ e cids cid, lookupEC s.entity_components_ e = some cids → cid ∈ cids →
    ∃ c, s.cid2containers_ cid = some c ∧ Container.has e c = true

/-- An entity indexed by a store carries the tag in its registry set. -/
def ConToReg (s : State V E) : Prop :=
  ∀ cid c e, s.cid2containers_ cid = some c → Container.has e c = true →
    ∃ cids, lookupEC s.entity_components_ e = some cids ∧ cid ∈ cids

/-- Coherence invariant of a whole ECS state. -/
def StateWF (s : State V E) : Prop :=
  RegNodup s ∧ ConsWF s ∧ RegToCon s ∧ ConToReg s

/-- States of a store reachable by `add` (with the documented
no-duplicate precondition) and `remove` in any order. -/
inductive Container.Reachable {V : Type} : Container V → Prop
  | empty : Container.Reachable Container.empty
  | add {c : Container V} (e : Entity) (v : V) :
      Container.Reachable c → Container.has e c = false →
      Container.Reachable (Container.add e v c)
  | remove {c : Container V} (e : Entity) :
      Container.Reachable c → Container.Reachable (Container.remove e c)

/-! ### Lemmas and claim theorems -/

@[simp] theorem fupd_same {α : Type} (f : Nat → Option α) (k : Nat) (v : Option α) :
    fupd f k v k = v := by
  simp [fupd]

@[simp] theorem fupd_ne {α : Type} (f : Nat → Option α) (k x : Nat) (v : Option α)
    (h : x ≠ k) : fupd f k v x = f x := by
  simp [fupd, h]

namespace SparseSet

theorem wf_empty : WF empty := by
  constructor
  · intro k i h
    simp [empty] at h
  · intro i k h
    simp [empty] at h

theorem wf_add {s : SparseSet} (hwf : WF s) (val : Entity)
    (habs : has val s = false) : WF (add val s) := by
  obtain ⟨h1, h2⟩ := hwf
  have hnone : s.sparse val = none := by
    simpa [has, Option.isSome_iff_exists] using habs
  constructor
  · intro k i h
    simp only [add] at h ⊢
    by_cases hk : k = val
    · subst hk
      rw [fupd_same] at h
      cases h
      simp
    · rw [fupd_ne _ _ _ _ hk] at h
      have := h1 k i h
      have hi : i < s.dense.length := by
        exact (List.getElem?_eq_some_iff.mp this).1
      rw [List.getElem?_append]
      simp [hi, this]
  · intro i k h
    simp only [add] at h ⊢
    by_cases hi : i < s.dense.length
    · rw [List.getElem?_append, if_pos hi] at h
      have := h2 i k h
      have hk : k ≠ val := by
        intro hk
        subst hk
        rw [hnone] at this
        cases this
      rw [fupd_ne _ _ _ _ hk]
      exact this
    · have hlen : i < s.dense.length + 1 := by
        have := List.getElem?_eq_some_iff.mp h
        simpa [List.length_append] using this.1
      have hieq : i = s.dense.length := by omega
      subst hieq
      have hkval : k = val := by
        have : (s.dense ++ [val])[s.dense.length]? = some val := by
          simp
        rw [this] at h
        cases h
        rfl
      subst hkval
      simp
theorem wf_facts {s : SparseSet} (hwf : WF s) {val : Entity} {idx : Nat}
    (hidx : s.sparse val = some idx) :
    idx < s.dense.length ∧ s.dense[idx]? = some val ∧
      s.dense[s.dense.length - 1]? = some (s.dense.getLastD val) := by
  obtain ⟨h1, _⟩ := hwf
  have hd := h1 val idx hidx
  have hlt : idx < s.dense.length := (List.getElem?_eq_some_iff.mp hd).1
  refine ⟨hlt, hd, ?_⟩
  have hlt2 : s.dense.length - 1 < s.dense.length := by omega
  rw [List.getElem?_eq_getElem hlt2, List.getLastD_eq_getLast?,
    List.getLast?_eq_getElem?, List.getElem?_eq_getElem hlt2]
  rfl

theorem wf_remove {s : SparseSet} (hwf : WF s) (val : Entity) :
    WF (remove val s) := by
  obtain ⟨h1, h2⟩ := hwf
  unfold remove
  cases hsp : s.sparse val with
  | none => exact ⟨h1, h2⟩
  | some idx =>
    simp only
    obtain ⟨hlt, hd, hbk?⟩ := wf_facts ⟨h1, h2⟩ hsp
    have hpos : 0 < s.dense.length := by omega
    have hsbk : s.sparse (s.dense.getLastD val) = some (s.dense.length - 1) :=
      h2 (s.dense.length - 1) (s.dense.getLastD val) hbk?
    by_cases hvb : val = s.dense.getLastD val
    · -- removed key occupies the last dense slot: plain pop and erase
      have hidxlast : idx = s.dense.length - 1 := by
        rw [← hvb] at hsbk
        rw [hsp] at hsbk
        exact Option.some.inj hsbk
      simp only [if_pos hvb]
      constructor
      · intro k i hk
        dsimp only at hk ⊢
        by_cases hkv : k = val
        · subst hkv
          rw [fupd_same] at hk
          cases hk
        · rw [fupd_ne _ _ _ _ hkv] at hk
          have hdk := h1 k i hk
          have hilt : i < s.dense.length := (List.getElem?_eq_some_iff.mp hdk).1
          have hine : i ≠ s.dense.length - 1 := by
            intro hie
            subst hie
            rw [hdk] at hbk?
            exact hkv (by rw [hvb]; exact Option.some.inj hbk?)
          rw [List.getElem?_dropLast, if_pos (by omega)]
          exact hdk
      · intro i k hk
        dsimp only at hk ⊢
        rw [List.getElem?_dropLast] at hk
        by_cases hilt : i < s.dense.length - 1
        · rw [if_pos hilt] at hk
          have hspk := h2 i k hk
          have hkv : k ≠ val := by
            intro hke
            subst hke
            rw [hsp] at hspk
            have : idx = i := Option.some.inj hspk
            omega
          rw [fupd_ne _ _ _ _ hkv]
          exact hspk
        · rw [if_neg hilt] at hk
          cases hk
    · -- removed key sits strictly before the back: swap the back in
      have hidxne : idx ≠ s.dense.length - 1 := by
        intro hie
        subst hie
        rw [hd] at hbk?
        exact hvb (Option.some.inj hbk?)
      have hidxlt : idx < s.dense.length - 1 := by omega
      simp only [if_neg hvb]
      constructor
      · intro k i hk
        dsimp only at hk ⊢
        by_cases hkv : k = val
        · subst hkv
          rw [fupd_same] at hk
          cases hk
        · rw [fupd_ne _ _ _ _ hkv] at hk
          by_cases hkb : k = s.dense.getLastD val
          · subst hkb
            rw [fupd_same] at hk
            have hie : i = idx := (Option.some.inj hk).symm
            subst hie
            rw [List.getElem?_dropLast, List.length_set, if_pos hidxlt,
              List.getElem?_set, if_pos rfl, if_pos hlt]
          · rw [fupd_ne _ _ _ _ hkb] at hk
            have hdk := h1 k i hk
            have hilt : i < s.dense.length := (List.getElem?_eq_some_iff.mp hdk).1
            have hine1 : i ≠ s.dense.length - 1 := by
              intro hie
              subst hie
              rw [hdk] at hbk?
              exact hkb (Option.some.inj hbk?)
            have hine2 : i ≠ idx := by
              intro hie
              subst hie
              rw [hdk] at hd
              exact hkv (Option.some.inj hd)
            rw [List.getElem?_dropLast, List.length_set, if_pos (by omega),
              List.getElem?_set, if_neg (fun h => hine2 h.symm)]
            exact hdk
      · intro i k hk
        dsimp only at hk ⊢
        rw [List.getElem?_dropLast, List.length_set] at hk
        by_cases hilt : i < s.dense.length - 1
        · rw [if_pos hilt, List.getElem?_set] at hk
          by_cases hie : idx = i
          · subst hie
            rw [if_pos rfl, if_pos hlt] at hk
            have hkb : k = s.dense.getLastD val := (Option.some.inj hk).symm
            subst hkb
            rw [fupd_ne _ _ _ _ (fun h => hvb h.symm), fupd_same]
          · rw [if_neg hie] at hk
            have hspk := h2 i k hk
            have hkv : k ≠ val := by
              intro hke
              subst hke
              rw [hsp] at hspk
              exact hie (Option.some.inj hspk)
            have hkb : k ≠ s.dense.getLastD val := by
              intro hke
              subst hke
              rw [hsbk] at hspk
              have : s.dense.length - 1 = i := Option.some.inj hspk
              omega
            rw [fupd_ne _ _ _ _ hkv, fupd_ne _ _ _ _ hkb]
            exact hspk
        · rw [if_neg hilt] at hk
          cases hk

/-- Membership of the removed key is always cleared. -/
theorem has_remove_self (val : Entity) (s : SparseSet) :
    has val (remove val s) = false := by
  unfold remove has
  cases hsp : s.sparse val with
  | none => simp [hsp]
  | some idx => simp

/-- Membership of other keys is untouched by `remove`, given the invariant. -/
theorem has_remove_ne {s : SparseSet} (hwf : WF s) {x val : Entity} (hne : x ≠ val) :
    has x (remove val s) = has x s := by
  unfold remove
  cases hsp : s.sparse val with
  | none => rfl
  | some idx =>
    obtain ⟨hlt, hd, hbk?⟩ := wf_facts hwf hsp
    have hsbk : s.sparse (s.dense.getLastD val) = some (s.dense.length - 1) :=
      hwf.2 (s.dense.length - 1) (s.dense.getLastD val) hbk?
    simp only [has]
    rw [fupd_ne _ _ _ _ hne]
    by_cases hvb : val = s.dense.getLastD val
    · rw [if_pos hvb]
    · rw [if_neg hvb]
      by_cases hxb : x = s.dense.getLastD val
      · subst hxb
        rw [fupd_same, hsbk]
        rfl
      · rw [fupd_ne _ _ _ _ hxb]

@[simp] theorem has_add_self (val : Entity) (s : SparseSet) :
    has val (add val s) = true := by
  simp [has, add]

theorem has_add_ne {x val : Entity} (hne : x ≠ val) (s : SparseSet) :
    has x (add val s) = has x s := by
  simp [has, add, fupd, hne]

end SparseSet

namespace Container

variable {V : Type}

theorem wf_empty_store : WF (empty : Container V) :=
  ⟨SparseSet.wf_empty, rfl⟩

theorem wf_add_store {c : Container V} (hwf : WF c) {e : Entity} (v : V)
    (habs : has e c = false) : WF (add e v c) := by
  obtain ⟨hs, hl⟩ := hwf
  refine ⟨SparseSet.wf_add hs e habs, ?_⟩
  simp [add, SparseSet.add, hl]

theorem wf_remove_store {c : Container V} (hwf : WF c) (e : Entity) :
    WF (remove e c) := by
  obtain ⟨hs, hl⟩ := hwf
  unfold remove
  by_cases hhas : has e c = false
  · rw [if_pos hhas]
    exact ⟨hs, hl⟩
  · rw [if_neg hhas]
    refine ⟨SparseSet.wf_remove hs e, ?_⟩
    have hsp : ∃ idx, c.entities_.sparse e = some idx := by
      simp only [has, SparseSet.has, Bool.not_eq_false] at hhas
      exact Option.isSome_iff_exists.mp hhas
    obtain ⟨idx, hsp⟩ := hsp
    obtain ⟨hlt, hd, hbkeq⟩ := SparseSet.wf_facts hs hsp
    simp only [SparseSet.remove, hsp]
    have hgi : SparseSet.get_index e c.entities_ = idx := by
      simp [SparseSet.get_index, hsp]
    rw [hgi, List.length_dropLast, List.length_dropLast]
    have hlen : (match c.components_.getLast? with
        | some bk =>
          if idx < c.components_.length - 1 then c.components_.set idx bk else c.components_
        | none => c.components_).length = c.components_.length := by
      cases c.components_.getLast? with
      | none => rfl
      | some bk =>
        simp only
        split <;> simp
    rw [hlen]
    split <;> simp [hl]

/-- Removing an entity clears its membership. -/
theorem has_remove_self_store (e : Entity) (c : Container V) :
    has e (remove e c) = false := by
  unfold remove
  by_cases hhas : has e c = false
  · rw [if_pos hhas]
    exact hhas
  · rw [if_neg hhas]
    exact SparseSet.has_remove_self e c.entities_

theorem has_remove_ne_store {c : Container V} (hwf : WF c) {x e : Entity} (hne : x ≠ e) :
    has x (remove e c) = has x c := by
  unfold remove
  by_cases hhas : has e c = false
  · rw [if_pos hhas]
  · rw [if_neg hhas]
    exact SparseSet.has_remove_ne hwf.1 hne

@[simp] theorem has_add_self_store (e : Entity) (v : V) (c : Container V) :
    has e (add e v c) = true := by
  simp [has, add]

theorem has_add_ne_store {x e : Entity} (hne : x ≠ e) (v : V) (c : Container V) :
    has x (add e v c) = has x c := by
  simp [has, add, SparseSet.has_add_ne hne]

theorem get?_add_self {c : Container V} (hwf : WF c) (e : Entity) (v : V) :
    get? e (add e v c) = some v := by
  obtain ⟨_, hl⟩ := hwf
  simp [get?, add, SparseSet.add, ← hl]

theorem get?_add_ne {c : Container V} (hwf : WF c) {x e : Entity} (hne : x ≠ e)
    (v : V) : get? x (add e v c) = get? x c := by
  obtain ⟨⟨h1, _⟩, hl⟩ := hwf
  simp only [get?, add, SparseSet.add]
  rw [fupd_ne _ _ _ _ hne]
  cases hsp : c.entities_.sparse x with
  | none => rfl
  | some j =>
    have hj : j < c.entities_.dense.length := (List.getElem?_eq_some_iff.mp (h1 x j hsp)).1
    show (c.components_ ++ [v])[j]? = c.components_[j]?
    rw [List.getElem?_append, if_pos (by omega)]

/-- Core swap-remove stability: removing one entity never changes the
value retrievable for any other entity. -/
theorem get?_remove_ne {c : Container V} (hwf : WF c) {x y : Entity}
    (hne : x ≠ y) (hy : has y c = true) :
    get? x (remove y c) = get? x c := by
  obtain ⟨⟨h1, h2⟩, hl⟩ := hwf
  have hsp : ∃ idx, c.entities_.sparse y = some idx := by
    simp only [has, SparseSet.has] at hy
    exact Option.isSome_iff_exists.mp hy
  obtain ⟨idx, hsp⟩ := hsp
  obtain ⟨hlt, hd, hbk?⟩ := SparseSet.wf_facts ⟨h1, h2⟩ hsp
  have hpos : 0 < c.entities_.dense.length := by omega
  have hsbk : c.entities_.sparse (c.entities_.dense.getLastD y) =
      some (c.entities_.dense.length - 1) :=
    h2 (c.entities_.dense.length - 1) (c.entities_.dense.getLastD y) hbk?
  have hnotfalse : ¬ has y c = false := by
    rw [hy]
    simp
  have hgi : SparseSet.get_index y c.entities_ = idx := by
    simp [SparseSet.get_index, hsp]
  have hcbk0 : ∃ bkv, c.components_.getLast? = some bkv := by
    rw [List.getLast?_eq_getElem?, List.getElem?_eq_getElem (by omega :
      c.components_.length - 1 < c.components_.length)]
    exact ⟨_, rfl⟩
  obtain ⟨bkv, hcbk⟩ := hcbk0
  have hbv : c.components_[c.components_.length - 1]? = some bkv := by
    rw [← List.getLast?_eq_getElem?]
    exact hcbk
  unfold remove
  rw [if_neg hnotfalse, hgi]
  simp only [get?, SparseSet.remove, hsp, hcbk]
  rw [fupd_ne _ _ _ _ hne]
  by_cases hvb : y = c.entities_.dense.getLastD y
  · -- removed entity holds the last slot: plain pop on both vectors
    have hidxlast : idx = c.entities_.dense.length - 1 := by
      rw [← hvb] at hsbk
      rw [hsp] at hsbk
      exact Option.some.inj hsbk
    rw [if_pos hvb, if_neg (by omega)]
    cases hspx : c.entities_.sparse x with
    | none => rfl
    | some j =>
      have hdx := h1 x j hspx
      have hjlt : j < c.entities_.dense.length := (List.getElem?_eq_some_iff.mp hdx).1
      have hjne : j ≠ idx := by
        intro hje
        subst hje
        rw [hdx] at hd
        exact hne (Option.some.inj hd)
      show c.components_.dropLast[j]? = c.components_[j]?
      rw [List.getElem?_dropLast, if_pos (by omega)]
  · -- removed entity sits before the back: back value moves to its slot
    have hidxne : idx ≠ c.entities_.dense.length - 1 := by
      intro hie
      subst hie
      rw [hd] at hbk?
      exact hvb (Option.some.inj hbk?)
    have hidxlt : idx < c.entities_.dense.length - 1 := by omega
    rw [if_neg hvb, if_pos (by omega)]
    by_cases hxb : x = c.entities_.dense.getLastD y
    · subst hxb
      rw [fupd_same, hsbk]
      show (c.components_.set idx bkv).dropLast[idx]? =
        c.components_[c.entities_.dense.length - 1]?
      rw [List.getElem?_dropLast, List.length_set, if_pos (by omega),
        List.getElem?_set, if_pos rfl, if_pos (by omega)]
      have hIdx : c.entities_.dense.length - 1 = c.components_.length - 1 := by omega
      rw [hIdx, hbv]
    · rw [fupd_ne _ _ _ _ hxb]
      cases hspx : c.entities_.sparse x with
      | none => rfl
      | some j =>
        have hdx := h1 x j hspx
        have hjlt : j < c.entities_.dense.length := (List.getElem?_eq_some_iff.mp hdx).1
        have hjne : j ≠ idx := by
          intro hje
          subst hje
          rw [hdx] at hd
          exact hne (Option.some.inj hd)
        have hjne1 : j ≠ c.entities_.dense.length - 1 := by
          intro hje
          subst hje
          rw [hdx] at hbk?
          exact hxb (Option.some.inj hbk?)
        show (c.components_.set idx bkv).dropLast[j]? = c.components_[j]?
        rw [List.getElem?_dropLast, List.length_set, if_pos (by omega),
          List.getElem?_set, if_neg (fun h => hjne h.symm)]

end Container

/-! ### Registry lemmas -/

@[simp] theorem lookupEC_nil (e : Entity) : lookupEC [] e = none := rfl

theorem lookupEC_setEC_self (l : Registry) (e : Entity) (v : List CID) :
    lookupEC (setEC l e v) e = some v := by
  induction l with
  | nil => simp [setEC, lookupEC]
  | cons p l ih =>
    by_cases hp : p.1 = e
    · simp [setEC, lookupEC, hp]
    · simp [setEC, lookupEC, hp, ih]

theorem lookupEC_append_single_ne {e x : Entity} (hne : x ≠ e) (l : Registry)
    (v : List CID) :
    lookupEC (l ++ [(e, v)]) x = lookupEC l x := by
  induction l with
  | nil => simp [lookupEC, Ne.symm hne]
  | cons p l ih =>
    simp only [List.cons_append, lookupEC]
    by_cases hp : p.1 = x
    · simp [hp]
    · simp [hp, ih]

theorem lookupEC_setEC_ne {e x : Entity} (hne : x ≠ e) (l : Registry) (v : List CID) :
    lookupEC (setEC l e v) x = lookupEC l x := by
  induction l with
  | nil => simp [setEC, lookupEC, Ne.symm hne]
  | cons p l ih =>
    by_cases hp : p.1 = e
    · simp only [setEC, if_pos hp, lookupEC]
      rw [if_neg (Ne.symm hne), if_neg (fun hc => Ne.symm hne (hp.symm.trans hc))]
    · simp only [setEC, if_neg hp, lookupEC]
      by_cases hx : p.1 = x
      · simp [hx]
      · simp [hx, ih]

theorem lookupEC_append_of_none {l : Registry} {x : Entity}
    (h : lookupEC l x = none) (l2 : Registry) :
    lookupEC (l ++ l2) x = lookupEC l2 x := by
  induction l with
  | nil => rfl
  | cons p l ih =>
    simp only [lookupEC] at h
    by_cases hp : p.1 = x
    · simp [hp] at h
    · simp only [List.cons_append, lookupEC, if_neg hp] at *
      exact ih h

theorem lookupEC_default_insert_self (l : Registry) (e : Entity) :
    lookupEC (default_insert l e) e = some ((lookupEC l e).getD []) := by
  unfold default_insert
  cases hl : lookupEC l e with
  | some cids => simp [hl]
  | none =>
    simp only [hl, Option.isSome_none, Bool.false_eq_true, if_neg, not_false_eq_true]
    rw [lookupEC_append_of_none hl]
    simp [lookupEC]

theorem lookupEC_default_insert_ne {e x : Entity} (hne : x ≠ e) (l : Registry) :
    lookupEC (default_insert l e) x = lookupEC l x := by
  unfold default_insert
  by_cases h : (lookupEC l e).isSome
  · rw [if_pos h]
  · rw [if_neg h]
    exact lookupEC_append_single_ne hne l []

theorem length_setEC_present {l : Registry} {e : Entity}
    (h : (lookupEC l e).isSome = true) (v : List CID) :
    (setEC l e v).length = l.length := by
  induction l with
  | nil => simp [lookupEC] at h
  | cons p l ih =>
    by_cases hp : p.1 = e
    · simp [setEC, hp]
    · simp only [lookupEC, if_neg hp] at h
      simp [setEC, hp, ih h]

theorem length_setEC_absent {l : Registry} {e : Entity}
    (h : lookupEC l e = none) (v : List CID) :
    (setEC l e v).length = l.length + 1 := by
  induction l with
  | nil => simp [setEC]
  | cons p l ih =>
    simp only [lookupEC] at h
    by_cases hp : p.1 = e
    · simp [hp] at h
    · simp only [if_neg hp] at h
      simp [setEC, hp, ih h]

theorem length_default_insert_present {l : Registry} {e : Entity}
    (h : (lookupEC l e).isSome = true) :
    (default_insert l e).length = l.length := by
  simp [default_insert, h]

theorem length_default_insert_absent {l : Registry} {e : Entity}
    (h : lookupEC l e = none) :
    (default_insert l e).length = l.length + 1 := by
  simp [default_insert, h]

/-! ### Basic facts about the component operations -/

theorem contains_iff {l : List CID} {a : CID} : l.contains a = true ↔ a ∈ l := by
  simp [List.contains, List.elem_iff]

variable {V E : Type}

/-- The `add_component` body only rewrites the registry and the store map. -/
theorem add_component_frame (e : Entity) (cid : CID) (v : V) (s : State V E) :
    ∃ reg con, add_component e cid v s =
      { s with entity_components_ := reg, cid2containers_ := con } := by
  unfold add_component
  dsimp only
  split
  · exact ⟨_, _, rfl⟩
  · exact ⟨_, _, rfl⟩

/-- The `remove_component_` body only rewrites the registry and the store map. -/
theorem remove_component_frame (e : Entity) (cid : CID) (s : State V E) :
    ∃ reg con, remove_component_ e cid s =
      { s with entity_components_ := reg, cid2containers_ := con } := by
  unfold remove_component_
  split
  · exact ⟨_, _, rfl⟩
  · dsimp only
    split
    · split
      · exact ⟨_, _, rfl⟩
      · exact ⟨_, _, rfl⟩
    · exact ⟨_, _, rfl⟩

theorem add_component_lookup_ne {x e : Entity} (hne : x ≠ e) (cid : CID) (v : V)
    (s : State V E) :
    lookupEC (add_component e cid v s).entity_components_ x =
      lookupEC s.entity_components_ x := by
  unfold add_component
  dsimp only
  split
  · exact lookupEC_default_insert_ne hne _
  · show lookupEC (setEC (default_insert s.entity_components_ e) e _) x = _
    rw [lookupEC_setEC_ne hne, lookupEC_default_insert_ne hne]

theorem add_component_lookup_self_present {e : Entity} {cid : CID}
    {s : State V E} (h : ((lookupEC s.entity_components_ e).getD []).contains cid = true)
    (v : V) :
    lookupEC (add_component e cid v s).entity_components_ e =
      some ((lookupEC s.entity_components_ e).getD []) := by
  unfold add_component
  dsimp only
  rw [if_pos h]
  exact lookupEC_default_insert_self _ _

theorem add_component_lookup_self_absent {e : Entity} {cid : CID}
    {s : State V E} (h : ((lookupEC s.entity_components_ e).getD []).contains cid = false)
    (v : V) :
    lookupEC (add_component e cid v s).entity_components_ e =
      some ((lookupEC s.entity_components_ e).getD [] ++ [cid]) := by
  unfold add_component
  dsimp only
  rw [if_neg (by rw [h]; simp)]
  show lookupEC (setEC (default_insert s.entity_components_ e) e _) e = _
  rw [lookupEC_setEC_self]

theorem add_component_containers_ne {k cid : CID} (hne : k ≠ cid) (e : Entity) (v : V)
    (s : State V E) :
    (add_component e cid v s).cid2containers_ k = s.cid2containers_ k := by
  unfold add_component
  dsimp only
  split
  · rfl
  · exact fupd_ne _ _ _ _ hne

theorem add_component_containers_self_absent {e : Entity} {cid : CID}
    {s : State V E} (h : ((lookupEC s.entity_components_ e).getD []).contains cid = false)
    (v : V) :
    (add_component e cid v s).cid2containers_ cid =
      some (Container.add e v ((s.cid2containers_ cid).getD Container.empty)) := by
  unfold add_component
  dsimp only
  rw [if_neg (by rw [h]; simp)]
  exact fupd_same _ _ _

theorem add_component_containers_self_present {e : Entity} {cid : CID}
    {s : State V E} (h : ((lookupEC s.entity_components_ e).getD []).contains cid = true)
    (v : V) :
    (add_component e cid v s).cid2containers_ cid = s.cid2containers_ cid := by
  unfold add_component
  dsimp only
  rw [if_pos h]

/-- Immediately after `add_component(e, v)` the component id reads as
attached, whichever branch the guard took. -/
theorem has_component_add_self (e : Entity) (cid : CID) (v : V) (s : State V E) :
    has_component e cid (add_component e cid v s) = true := by
  unfold has_component
  by_cases h : ((lookupEC s.entity_components_ e).getD []).contains cid
  · rw [add_component_lookup_self_present h v]
    exact h
  · rw [add_component_lookup_self_absent (by simpa using h) v]
    simp [contains_iff]

theorem has_component_false_cases {e : Entity} {cid : CID} {s : State V E}
    (h : has_component e cid s = false) :
    ((lookupEC s.entity_components_ e).getD []).contains cid = false := by
  unfold has_component at h
  cases hl : lookupEC s.entity_components_ e with
  | none => simp [hl]
  | some cids =>
    rw [hl] at h
    simpa [hl] using h

/-- Removing a component the entity does not have is the literal no-op
branch of `remove_component_`. -/
theorem remove_component_absent {e : Entity} {cid : CID} {s : State V E}
    (h : has_component e cid s = false) :
    remove_component_ e cid s = s := by
  unfold remove_component_
  unfold has_component at h
  cases hl : lookupEC s.entity_components_ e with
  | none => rfl
  | some cids =>
    rw [hl] at h
    have hc : cids.contains cid = false := h
    dsimp only
    rw [if_neg (by rw [hc]; simp)]

theorem has_entity_add_component (x e : Entity) (cid : CID) (v : V) (s : State V E) :
    has_entity x s = true → has_entity x (add_component e cid v s) = true := by
  intro h
  unfold has_entity at h ⊢
  by_cases hx : x = e
  · subst hx
    by_cases hc : ((lookupEC s.entity_components_ x).getD []).contains cid
    · rw [add_component_lookup_self_present hc v]
      rfl
    · rw [add_component_lookup_self_absent (by simpa using hc) v]
      rfl
  · rw [add_component_lookup_ne hx]
    exact h

theorem remove_component_lookup_ne {x e : Entity} (hne : x ≠ e) (cid : CID)
    (s : State V E) :
    lookupEC (remove_component_ e cid s).entity_components_ x =
      lookupEC s.entity_components_ x := by
  unfold remove_component_
  split
  · rfl
  · dsimp only
    split
    · split
      · show lookupEC (setEC _ e _) x = _
        rw [lookupEC_setEC_ne hne]
      · show lookupEC (setEC _ e _) x = _
        rw [lookupEC_setEC_ne hne]
    · rfl

theorem remove_component_lookup_self {e : Entity} {cid : CID} {s : State V E}
    {cids : List CID} (hl : lookupEC s.entity_components_ e = some cids)
    (hc : cids.contains cid = true) :
    lookupEC (remove_component_ e cid s).entity_components_ e =
      some (cids.erase cid) := by
  unfold remove_component_
  rw [hl]
  dsimp only
  rw [if_pos hc]
  split
  · show lookupEC (setEC _ e _) e = _
    exact lookupEC_setEC_self _ _ _
  · exact lookupEC_setEC_self _ _ _

theorem remove_component_containers_ne {k cid : CID} (hne : k ≠ cid) (e : Entity)
    (s : State V E) :
    (remove_component_ e cid s).cid2containers_ k = s.cid2containers_ k := by
  unfold remove_component_
  split
  · rfl
  · dsimp only
    split
    · split
      · exact fupd_ne _ _ _ _ hne
      · rfl
    · rfl

theorem remove_component_containers_self {e : Entity} {cid : CID} {s : State V E}
    {cids : List CID} {c : Container V}
    (hl : lookupEC s.entity_components_ e = some cids) (hc : cids.contains cid = true)
    (hcon : s.cid2containers_ cid = some c) :
    (remove_component_ e cid s).cid2containers_ cid =
      some (Container.remove e c) := by
  unfold remove_component_
  rw [hl]
  dsimp only
  rw [if_pos hc, hcon]
  dsimp only
  exact fupd_same _ _ _

theorem remove_component_containers_self_none {e : Entity} {cid : CID} {s : State V E}
    (hcon : s.cid2containers_ cid = none) :
    (remove_component_ e cid s).cid2containers_ cid = none := by
  unfold remove_component_
  split
  · exact hcon
  · dsimp only
    split
    · rw [hcon]
      dsimp only
      exact hcon
    · exact hcon

theorem regNodup_add_component {s : State V E} (hnd : RegNodup s)
    (e : Entity) (cid : CID) (v : V) :
    RegNodup (add_component e cid v s) := by
  intro x cidsx hx
  by_cases hxe : x = e
  · subst hxe
    by_cases hc : ((lookupEC s.entity_components_ x).getD []).contains cid
    · rw [add_component_lookup_self_present hc v] at hx
      cases hx
      cases hl : lookupEC s.entity_components_ x with
      | none =>
        simp [hl]
      | some cids =>
        simpa [hl] using hnd x cids hl
    · rw [add_component_lookup_self_absent (by simpa using hc) v] at hx
      cases hx
      have hmem : cid ∉ (lookupEC s.entity_components_ x).getD [] := by
        intro hm
        rw [← contains_iff] at hm
        exact hc hm
      cases hl : lookupEC s.entity_components_ x with
      | none => simp [hl]
      | some cids =>
        have hmem2 : cid ∉ cids := by
          rw [hl] at hmem
          simpa using hmem
        have hnds := hnd x cids hl
        simp [List.nodup_append, hnds, List.disjoint_singleton, hmem2]
  · rw [add_component_lookup_ne hxe] at hx
    exact hnd x cidsx hx

theorem regNodup_remove_component_ {s : State V E} (hnd : RegNodup s)
    (e : Entity) (cid : CID) :
    RegNodup (remove_component_ e cid s) := by
  intro x cidsx hx
  by_cases hxe : x = e
  · subst hxe
    cases hl : lookupEC s.entity_components_ x with
    | none =>
      unfold remove_component_ at hx
      rw [hl] at hx
      exact hnd x cidsx (hl ▸ hx)
    | some cids =>
      by_cases hc : cids.contains cid
      · rw [remove_component_lookup_self hl hc] at hx
        cases hx
        exact (hnd x cids hl).erase cid
      · unfold remove_component_ at hx
        rw [hl] at hx
        dsimp only at hx
        rw [if_neg (by rw [(by simpa using hc : cids.contains cid = false)]; simp)] at hx
        exact hnd x cidsx hx
  · rw [remove_component_lookup_ne hxe] at hx
    exact hnd x cidsx hx

theorem statewf_empty : StateWF (emptyState : State V E) := by
  refine ⟨?_, ?_, ?_, ?_⟩
  · intro e cids h
    simp [emptyState] at h
  · intro cid c h
    simp [emptyState] at h
  · intro e cids cid h _
    simp [emptyState] at h
  · intro cid c e h _
    simp [emptyState] at h

theorem statewf_add_component {s : State V E} (hwf : StateWF s)
    (e : Entity) (cid : CID) (v : V) :
    StateWF (add_component e cid v s) := by
  obtain ⟨hnd, hcw, hrc, hcr⟩ := hwf
  by_cases hc : ((lookupEC s.entity_components_ e).getD []).contains cid
  · -- already attached: the guard fires; nothing observable changes
    have hpres : ∃ cids0, lookupEC s.entity_components_ e = some cids0 := by
      cases hl : lookupEC s.entity_components_ e with
      | none => simp [hl] at hc
      | some cids0 => exact ⟨cids0, rfl⟩
    obtain ⟨cids0, hl0⟩ := hpres
    have hlook : ∀ x, lookupEC (add_component e cid v s).entity_components_ x =
        lookupEC s.entity_components_ x := by
      intro x
      by_cases hx : x = e
      · subst hx
        rw [add_component_lookup_self_present hc v, hl0]
        rfl
      · exact add_component_lookup_ne hx cid v s
    have hcon : ∀ k, (add_component e cid v s).cid2containers_ k =
        s.cid2containers_ k := by
      intro k
      by_cases hk : k = cid
      · subst hk
        exact add_component_containers_self_present hc v
      · exact add_component_containers_ne hk e v s
    refine ⟨?_, ?_, ?_, ?_⟩
    · intro x cids hx
      rw [hlook] at hx
      exact hnd x cids hx
    · intro k c hk
      rw [hcon] at hk
      exact hcw k c hk
    · intro x cids k hx hm
      rw [hlook] at hx
      rw [hcon k]
      exact hrc x cids k hx hm
    · intro k c x hk hx
      rw [hcon] at hk
      rw [hlook x]
      exact hcr k c x hk hx
  · -- fresh attach
    have hc' : ((lookupEC s.entity_components_ e).getD []).contains cid = false := by
      simpa using hc
    have hgm : cid ∉ (lookupEC s.entity_components_ e).getD [] := by
      intro hm
      rw [← contains_iff] at hm
      exact hc hm
    have hlook_e : lookupEC (add_component e cid v s).entity_components_ e =
        some ((lookupEC s.entity_components_ e).getD [] ++ [cid]) :=
      add_component_lookup_self_absent hc' v
    have hcon_cid : (add_component e cid v s).cid2containers_ cid =
        some (Container.add e v ((s.cid2containers_ cid).getD Container.empty)) :=
      add_component_containers_self_absent hc' v
    have hce : Container.has e ((s.cid2containers_ cid).getD Container.empty) = false := by
      cases hq : s.cid2containers_ cid with
      | none =>
        simp [Container.has, Container.empty, SparseSet.has, SparseSet.empty]
      | some c =>
        cases hh : Container.has e c with
        | false => simpa [hq] using hh
        | true =>
          obtain ⟨cids1, hl1, hm1⟩ := hcr cid c e hq hh
          rw [hl1] at hgm
          exact absurd hm1 (by simpa using hgm)
    have hwfc0 : Container.WF ((s.cid2containers_ cid).getD Container.empty) := by
      cases hq : s.cid2containers_ cid with
      | none => exact Container.wf_empty_store
      | some c => simpa [hq] using hcw cid c hq
    refine ⟨regNodup_add_component hnd e cid v, ?_, ?_, ?_⟩
    · intro k c hk
      by_cases hk' : k = cid
      · subst hk'
        rw [hcon_cid] at hk
        cases hk
        exact Container.wf_add_store hwfc0 v hce
      · rw [add_component_containers_ne hk' e v s] at hk
        exact hcw k c hk
    · intro x cids k hx hm
      by_cases hxe : x = e
      · subst hxe
        rw [hlook_e] at hx
        cases hx
        rcases List.mem_append.mp hm with hm1 | hm2
        · have hkc : k ≠ cid := fun hke => hgm (hke ▸ hm1)
          have hsome : ∃ cids0, lookupEC s.entity_components_ x = some cids0 := by
            cases hl : lookupEC s.entity_components_ x with
            | none => simp [hl] at hm1
            | some cids0 => exact ⟨cids0, rfl⟩
          obtain ⟨cids0, hl0⟩ := hsome
          rw [hl0] at hm1
          obtain ⟨c1, hc1, hhas1⟩ := hrc x cids0 k hl0 (by simpa using hm1)
          exact ⟨c1, by rw [add_component_containers_ne hkc]; exact hc1, hhas1⟩
        · have hkc : k = cid := by simpa using hm2
          subst hkc
          refine ⟨_, hcon_cid, ?_⟩
          exact Container.has_add_self_store x v _
      · rw [add_component_lookup_ne hxe] at hx
        obtain ⟨c1, hc1, hhas1⟩ := hrc x cids k hx hm
        by_cases hk' : k = cid
        · subst hk'
          refine ⟨_, hcon_cid, ?_⟩
          have hc0 : (s.cid2containers_ k).getD Container.empty = c1 := by
            rw [hc1]
            rfl
          rw [hc0, Container.has_add_ne_store hxe]
          exact hhas1
        · exact ⟨c1, by rw [add_component_containers_ne hk']; exact hc1, hhas1⟩
    · intro k c x hk hx
      by_cases hk' : k = cid
      · subst hk'
        rw [hcon_cid] at hk
        cases hk
        by_cases hxe : x = e
        · subst hxe
          exact ⟨_, hlook_e, by simp⟩
        · rw [Container.has_add_ne_store hxe] at hx
          cases hq : s.cid2containers_ k with
          | none =>
            rw [hq] at hx
            simp [Container.has, Container.empty, SparseSet.has, SparseSet.empty] at hx
          | some c1 =>
            rw [hq] at hx
            obtain ⟨cids1, hl1, hm1⟩ := hcr k c1 x hq (by simpa using hx)
            refine ⟨cids1, ?_, hm1⟩
            rw [add_component_lookup_ne hxe]
            exact hl1
      · rw [add_component_containers_ne hk' e v s] at hk
        obtain ⟨cids1, hl1, hm1⟩ := hcr k c x hk hx
        by_cases hxe : x = e
        · subst hxe
          refine ⟨(lookupEC s.entity_components_ x).getD [] ++ [cid], hlook_e, ?_⟩
          rw [hl1]
          simp [hm1]
        · exact ⟨cids1, by rw [add_component_lookup_ne hxe]; exact hl1, hm1⟩

/-- Whatever the starting state, the removed id never reads as attached
afterwards (the set erase is complete on duplicate-free sets). -/
theorem has_component_remove_self {s : State V E} (hnd : RegNodup s)
    (e : Entity) (cid : CID) :
    has_component e cid (remove_component_ e cid s) = false := by
  by_cases h : has_component e cid s
  · unfold has_component at h
    cases hl : lookupEC s.entity_components_ e with
    | none =>
      rw [hl] at h
      cases h
    | some cids =>
      rw [hl] at h
      unfold has_component
      rw [remove_component_lookup_self hl h]
      have hnds := hnd e cids hl
      cases hx : (cids.erase cid).contains cid with
      | false => exact hx
      | true =>
        exact absurd rfl ((hnds.mem_erase_iff.mp (contains_iff.mp hx)).1)
  · rw [remove_component_absent (by simpa using h)]
    simpa using h

theorem statewf_remove_component_ {s : State V E} (hwf : StateWF s)
    (e : Entity) (cid : CID) :
    StateWF (remove_component_ e cid s) := by
  obtain ⟨hnd, hcw, hrc, hcr⟩ := hwf
  by_cases h : has_component e cid s
  case neg =>
    rw [remove_component_absent (by simpa using h)]
    exact ⟨hnd, hcw, hrc, hcr⟩
  case pos =>
    unfold has_component at h
    cases hl : lookupEC s.entity_components_ e with
    | none =>
      rw [hl] at h
      cases h
    | some cids =>
      rw [hl] at h
      obtain ⟨c, hck, hhase⟩ := hrc e cids cid hl (contains_iff.mp h)
      have hwfc := hcw cid c hck
      have hlook_e : lookupEC (remove_component_ e cid s).entity_components_ e =
          some (cids.erase cid) := remove_component_lookup_self hl h
      have hcon_cid : (remove_component_ e cid s).cid2containers_ cid =
          some (Container.remove e c) := remove_component_containers_self hl h hck
      refine ⟨regNodup_remove_component_ hnd e cid, ?_, ?_, ?_⟩
      · intro k c1 hk
        by_cases hk' : k = cid
        · subst hk'
          rw [hcon_cid] at hk
          cases hk
          exact Container.wf_remove_store hwfc e
        · rw [remove_component_containers_ne hk' e s] at hk
          exact hcw k c1 hk
      · intro x cidsx k hx hm
        by_cases hxe : x = e
        · subst hxe
          rw [hlook_e] at hx
          cases hx
          have hkc : k ≠ cid := ((hnd x cids hl).mem_erase_iff.mp hm).1
          have hm2 : k ∈ cids := List.mem_of_mem_erase hm
          obtain ⟨c1, hc1, hhas1⟩ := hrc x cids k hl hm2
          exact ⟨c1, by rw [remove_component_containers_ne hkc]; exact hc1, hhas1⟩
        · rw [remove_component_lookup_ne hxe] at hx
          obtain ⟨c1, hc1, hhas1⟩ := hrc x cidsx k hx hm
          by_cases hk' : k = cid
          · subst hk'
            have hc1c : c1 = c := by
              rw [hck] at hc1
              exact (Option.some.inj hc1).symm
            subst hc1c
            refine ⟨Container.remove e c1, hcon_cid, ?_⟩
            rw [Container.has_remove_ne_store hwfc hxe]
            exact hhas1
          · exact ⟨c1, by rw [remove_component_containers_ne hk']; exact hc1, hhas1⟩
      · intro k c1 x hk hx
        by_cases hk' : k = cid
        · subst hk'
          rw [hcon_cid] at hk
          cases hk
          by_cases hxe : x = e
          · subst hxe
            rw [Container.has_remove_self_store] at hx
            cases hx
          · rw [Container.has_remove_ne_store hwfc hxe] at hx
            obtain ⟨cids1, hl1, hm1⟩ := hcr k c x hck hx
            refine ⟨cids1, ?_, hm1⟩
            rw [remove_component_lookup_ne hxe]
            exact hl1
        · rw [remove_component_containers_ne hk' e s] at hk
          obtain ⟨cids1, hl1, hm1⟩ := hcr k c1 x hk hx
          by_cases hxe : x = e
          · subst hxe
            have hcids1 : cids1 = cids := by
              rw [hl] at hl1
              exact (Option.some.inj hl1).symm
            subst hcids1
            refine ⟨cids1.erase cid, hlook_e, ?_⟩
            exact (List.mem_erase_of_ne hk').mpr hm1
          · refine ⟨cids1, ?_, hm1⟩
            rw [remove_component_lookup_ne hxe]
            exact hl1

/-- Value read immediately after a fresh attach. -/
theorem get_component?_add_self {s : State V E} (hcw : ConsWF s)
    {e : Entity} {cid : CID} (hnc : has_component e cid s = false) (v : V) :
    get_component? e cid (add_component e cid v s) = some v := by
  have hc := has_component_false_cases hnc
  unfold get_component?
  rw [add_component_containers_self_absent hc v]
  have hwfc0 : Container.WF ((s.cid2containers_ cid).getD Container.empty) := by
    cases hq : s.cid2containers_ cid with
    | none => exact Container.wf_empty_store
    | some c => simpa [hq] using hcw cid c hq
  exact Container.get?_add_self hwfc0 e v

/-! ### Update-cycle machinery -/

theorem apply_delayed_frame (s : State V E) (df : Entity × CID × V) :
    ∃ reg con, apply_delayed s df =
      { s with entity_components_ := reg, cid2containers_ := con } := by
  unfold apply_delayed
  split
  · exact add_component_frame df.1 df.2.1 df.2.2 s
  · exact ⟨_, _, rfl⟩

theorem foldl_apply_delayed_frame (L : List (Entity × CID × V)) (s : State V E) :
    ∃ reg con, L.foldl apply_delayed s =
      { s with entity_components_ := reg, cid2containers_ := con } := by
  induction L generalizing s with
  | nil => exact ⟨_, _, rfl⟩
  | cons df L ih =>
    obtain ⟨r1, c1, h1⟩ := apply_delayed_frame s df
    obtain ⟨r2, c2, h2⟩ := ih (apply_delayed s df)
    refine ⟨r2, c2, ?_⟩
    rw [List.foldl_cons, h2, h1]

theorem foldl_remove_frame (L : List (Entity × CID)) (s : State V E) :
    ∃ reg con, L.foldl (fun acc p => remove_component_ p.1 p.2 acc) s =
      { s with entity_components_ := reg, cid2containers_ := con } := by
  induction L generalizing s with
  | nil => exact ⟨_, _, rfl⟩
  | cons p L ih =>
    obtain ⟨r1, c1, h1⟩ := remove_component_frame p.1 p.2 s
    obtain ⟨r2, c2, h2⟩ := ih (remove_component_ p.1 p.2 s)
    refine ⟨r2, c2, ?_⟩
    rw [List.foldl_cons, h2, h1]

/-- With systems whose bodies do nothing, the system phase is the
identity. -/
theorem run_systems_id (s : State V E) :
    run_systems (fun _ t => t) s = s := by
  unfold run_systems
  suffices h : ∀ (L : List SID) (t : State V E), L.foldl (fun acc id =>
      match acc.system_infos_map_ id with
      | some info => if info.active then acc else acc
      | none => acc) t = t by
    exact h s.systems_ s
  intro L
  induction L with
  | nil => intro t; rfl
  | cons a L ih =>
    intro t
    rw [List.foldl_cons]
    have hstep : (match t.system_infos_map_ a with
        | some info => if info.active then t else t
        | none => t) = t := by
      cases t.system_infos_map_ a with
      | none => rfl
      | some info =>
        dsimp only
        split <;> rfl
    rw [hstep, ih t]

/-- Start-of-tick phase: buffers promoted, pulse attaches realized,
deferred list cleared; only the registry and stores move beyond that. -/
theorem update_begin_fields (s : State V E) :
    ∃ reg con, update_begin s = { s with
      entity_components_ := reg
      cid2containers_ := con
      current_events_map_ := s.next_events_map_
      next_events_map_ := fun _ => none
      current_entity_events_ := s.next_entity_events_
      next_entity_events_ := []
      delayed_functions_ := [] } := by
  unfold update_begin
  dsimp only
  obtain ⟨r, c, h⟩ := foldl_apply_delayed_frame s.delayed_functions_
    { s with
      current_events_map_ := s.next_events_map_
      next_events_map_ := fun _ => none
      current_entity_events_ := s.next_entity_events_
      next_entity_events_ := [] }
  refine ⟨r, c, ?_⟩
  rw [h]

theorem update_end_frame (s : State V E) :
    ∃ reg con, update_end s =
      { s with entity_components_ := reg, cid2containers_ := con } := by
  unfold update_end
  exact foldl_remove_frame s.current_entity_events_ s

/-- Event-buffer effect of one tick with inert systems: next becomes
current, next is left empty. -/
theorem update_id_events (s : State V E) :
    (update (fun _ t => t) s).current_events_map_ = s.next_events_map_ ∧
    (update (fun _ t => t) s).next_events_map_ = fun _ => none := by
  unfold update
  rw [run_systems_id]
  obtain ⟨r1, c1, h1⟩ := update_begin_fields s
  obtain ⟨r2, c2, h2⟩ := update_end_frame (update_begin s)
  rw [h2, h1]
  exact ⟨rfl, rfl⟩

/-- Pulse attaches never delete registry records. -/
theorem has_entity_apply_delayed (x : Entity) (s : State V E) (df : Entity × CID × V) :
    has_entity x s = true → has_entity x (apply_delayed s df) = true := by
  intro h
  unfold apply_delayed
  split
  · exact has_entity_add_component x df.1 df.2.1 df.2.2 s h
  · exact h

theorem has_entity_foldl_delayed (x : Entity) (L : List (Entity × CID × V))
    (s : State V E) :
    has_entity x s = true → has_entity x (L.foldl apply_delayed s) = true := by
  induction L generalizing s with
  | nil => exact id
  | cons df L ih =>
    intro h
    rw [List.foldl_cons]
    exact ih _ (has_entity_apply_delayed x s df h)

theorem regNodup_apply_delayed {s : State V E} (hnd : RegNodup s)
    (df : Entity × CID × V) : RegNodup (apply_delayed s df) := by
  unfold apply_delayed
  split
  · exact regNodup_add_component hnd df.1 df.2.1 df.2.2
  · exact hnd

theorem regNodup_foldl_delayed {s : State V E} (hnd : RegNodup s)
    (L : List (Entity × CID × V)) : RegNodup (L.foldl apply_delayed s) := by
  induction L generalizing s with
  | nil => exact hnd
  | cons df L ih =>
    rw [List.foldl_cons]
    exact ih (regNodup_apply_delayed hnd df)

theorem regNodup_foldl_remove {s : State V E} (hnd : RegNodup s)
    (L : List (Entity × CID)) :
    RegNodup (L.foldl (fun acc p => remove_component_ p.1 p.2 acc) s) := by
  induction L generalizing s with
  | nil => exact hnd
  | cons p L ih =>
    rw [List.foldl_cons]
    exact ih (regNodup_remove_component_ hnd p.1 p.2)

/-! ### Claim theorems -/

theorem reachable_wf {c : Container V} (hr : Container.Reachable c) :
    Container.WF c := by
  induction hr with
  | empty => exact Container.wf_empty_store
  | add e v hr habs ih => exact Container.wf_add_store ih v habs
  | remove e hr ih => exact Container.wf_remove_store ih e

/-- Claim C6: in every store reachable by guarded `add` and `remove`, the
sparse index and the dense key array are mutually inverse (so
`dense[sparse[k]] = k` and slot `i` belongs to exactly the entity mapped
to `i`), and the packed value vector stays in lockstep with the dense
keys, `remove` included. -/
theorem sparse_dense_bijection {V : Type} {c : Container V}
    (hr : Container.Reachable c) :
    (∀ k i, c.entities_.sparse k = some i ↔ c.entities_.dense[i]? = some k)
    ∧ c.components_.length = c.entities_.dense.length := by
  obtain ⟨⟨h1, h2⟩, hl⟩ := reachable_wf hr
  exact ⟨fun k i => ⟨fun h => h1 k i h, fun h => h2 i k h⟩, hl⟩

theorem sparse_dense_bijection_witness :
    ((Container.remove 1 (Container.add 2 20 (Container.add 1 10
        (Container.empty : Container Nat)))).entities_.sparse 2 = some 0
      ↔ (Container.remove 1 (Container.add 2 20 (Container.add 1 10
        (Container.empty : Container Nat)))).entities_.dense[0]? = some 2) := by
  have hr : Container.Reachable (Container.remove 1 (Container.add 2 20
      (Container.add 1 10 (Container.empty : Container Nat)))) :=
    Container.Reachable.remove 1 (Container.Reachable.add 2 20
      (Container.Reachable.add 1 10 Container.Reachable.empty (by decide)) (by decide))
  exact (sparse_dense_bijection hr).1 2 0

/-- Claim C5: swap-removing one entity from a store never changes the
value readable for any other entity. -/
theorem swap_remove_value_stable {V : Type} (c : Container V)
    (hwf : Container.WF c) (x y : Entity) (hxy : x ≠ y)
    (hy : Container.has y c = true) :
    Container.get? x (Container.remove y c) = Container.get? x c :=
  Container.get?_remove_ne hwf hxy hy

theorem swap_remove_value_stable_witness :
    Container.has 1 (Container.add 2 20 (Container.add 1 10
        (Container.empty : Container Nat))) = true
    ∧ Container.get? 2 (Container.remove 1 (Container.add 2 20 (Container.add 1 10
        (Container.empty : Container Nat)))) =
      Container.get? 2 (Container.add 2 20 (Container.add 1 10
        (Container.empty : Container Nat))) := by
  refine ⟨by decide, ?_⟩
  exact swap_remove_value_stable _
    (Container.wf_add_store (Container.wf_add_store Container.wf_empty_store 10 (by decide)) 20 (by decide))
    2 1 (by decide) (by decide)

/-- Claim C7 (code bug witness): registering the same system type twice
leaves the record map unchanged (`emplace` rejects the duplicate) but
appends the id to the ordered list again, so one tick schedules the
callable twice. -/
theorem duplicate_add_system_schedules_twice :
    (add_system 0 (add_system 0 (emptyState : State Nat Nat))).systems_ = [0, 0]
    ∧ (add_system 0 (add_system 0 (emptyState : State Nat Nat))).system_infos_map_ =
        (add_system 0 (emptyState : State Nat Nat)).system_infos_map_
    ∧ scheduled_runs 0 (add_system 0 (add_system 0 (emptyState : State Nat Nat))) = 2 := by
  refine ⟨rfl, rfl, rfl⟩

/-- Claim C9: `get_events` on a type with no current-frame buffer
default-inserts an empty buffer — afterwards `has_event` answers true
though nothing was raised, the yielded sequence is empty, and every
other piece of state (and every other event type's buffer) is
untouched. -/
theorem get_events_default_inserts (s : State V E) (eid : EID)
    (habs : s.current_events_map_ eid = none) :
    (get_events eid s).1 = []
    ∧ has_event eid (get_events eid s).2 = true
    ∧ (∀ k, k ≠ eid → (get_events eid s).2.current_events_map_ k =
        s.current_events_map_ k)
    ∧ (get_events eid s).2.next_events_map_ = s.next_events_map_
    ∧ (get_events eid s).2.entity_components_ = s.entity_components_
    ∧ (get_events eid s).2.cid2containers_ = s.cid2containers_
    ∧ (get_events eid s).2.systems_ = s.systems_
    ∧ (get_events eid s).2.system_infos_map_ = s.system_infos_map_
    ∧ (get_events eid s).2.current_entity_events_ = s.current_entity_events_
    ∧ (get_events eid s).2.next_entity_events_ = s.next_entity_events_
    ∧ (get_events eid s).2.delayed_functions_ = s.delayed_functions_
    ∧ (get_events eid s).2.next_entity_ = s.next_entity_ := by
  refine ⟨?_, ?_, ?_, rfl, rfl, rfl, rfl, rfl, rfl, rfl, rfl, rfl⟩
  · unfold get_events
    rw [habs]
    rfl
  · unfold has_event get_events
    dsimp only
    rw [fupd_same]
    rfl
  · intro k hk
    unfold get_events
    dsimp only
    rw [fupd_ne _ _ _ _ hk]

theorem get_events_default_inserts_witness :
    (emptyState : State Nat Nat).current_events_map_ 3 = none
    ∧ (get_events 3 (emptyState : State Nat Nat)).1 = []
    ∧ has_event 3 (get_events 3 (emptyState : State Nat Nat)).2 = true := by
  have h := get_events_default_inserts (emptyState : State Nat Nat) 3 rfl
  exact ⟨rfl, h.1, h.2.1⟩

/-- Claim C10: `add_component` on a handle that is not alive silently
creates the registry record: afterwards the entity exists, the entity
count went up by one, and the component reads as attached. -/
theorem add_component_creates_entity (s : State V E) (e : Entity) (cid : CID)
    (v : V) (hdead : has_entity e s = false) :
    has_entity e (add_component e cid v s) = true
    ∧ count_entities (add_component e cid v s) = count_entities s + 1
    ∧ has_component e cid (add_component e cid v s) = true := by
  have hl : lookupEC s.entity_components_ e = none := by
    unfold has_entity at hdead
    cases hq : lookupEC s.entity_components_ e with
    | none => rfl
    | some cids => simp [hq] at hdead
  have hc : ((lookupEC s.entity_components_ e).getD []).contains cid = false := by
    rw [hl]
    rfl
  refine ⟨?_, ?_, has_component_add_self e cid v s⟩
  · unfold has_entity
    rw [add_component_lookup_self_absent hc v]
    rfl
  · unfold count_entities add_component
    dsimp only
    rw [if_neg (by rw [hc]; simp)]
    dsimp only
    rw [length_setEC_present (by rw [lookupEC_default_insert_self]; rfl) _]
    exact length_default_insert_absent hl

theorem add_component_creates_entity_witness :
    has_entity 7 (emptyState : State Nat Nat) = false
    ∧ has_entity 7 (add_component 7 3 5 (emptyState : State Nat Nat)) = true
    ∧ count_entities (add_component 7 3 5 (emptyState : State Nat Nat)) =
        count_entities (emptyState : State Nat Nat) + 1 := by
  have h := add_component_creates_entity (emptyState : State Nat Nat) 7 3 5 rfl
  exact ⟨rfl, h.1, h.2.1⟩

/-- Claim C4 counterexample: an event raised this tick sits in the next
buffer, yet `has_event` still answers false, because it counts keys of
the current-frame map only. -/
theorem has_event_ignores_next_buffer :
    has_event 0 (add_event 0 7 (emptyState : State Nat Nat)) = false
    ∧ (add_event 0 7 (emptyState : State Nat Nat)).next_events_map_ 0 = some [7] := by
  exact ⟨rfl, rfl⟩

/-- Claim C4 (amended): `has_event` reads only the current-frame map —
raising events during a tick never changes it, and after a tick boundary
(with inert systems) it answers true exactly when the next buffer
existed before the boundary. -/
theorem has_event_reads_current_map (s : State V E) (eid eidr : EID) (v : E) :
    has_event eid (add_event eidr v s) = has_event eid s
    ∧ has_event eid (update (fun _ t => t) s) = (s.next_events_map_ eid).isSome := by
  constructor
  · rfl
  · unfold has_event
    rw [(update_id_events s).1]

/-- Claim C1 counterexample: on an entity that already holds the
component, `add_component` is a first-write-wins no-op, so the fresh
value is not the one read back. -/
theorem add_component_first_write_wins :
    has_entity 1 (add_component 1 0 10 (emptyState : State Nat Nat)) = true
    ∧ get_component? 1 0 (add_component 1 0 20
        (add_component 1 0 10 (emptyState : State Nat Nat))) = some 10
    ∧ get_component? 1 0 (add_component 1 0 20
        (add_component 1 0 10 (emptyState : State Nat Nat))) ≠ some 20 := by
  refine ⟨rfl, by decide, by decide⟩

/-- Claim C1 (amended): on a live entity that does not yet hold the
component, `add_component(e, v)` makes `has_component` true and
`get_component` read `v` (if the component were already present the add
would be a silent no-op keeping the old value); removing it afterwards
makes `has_component` false again; and removing a component the entity
does not have is the literal no-op branch, returning the state
unchanged. -/
theorem component_add_get_remove (s : State V E) (e : Entity) (cid : CID) (v : V)
    (hwf : StateWF s) (_halive : has_entity e s = true)
    (hnc : has_component e cid s = false) :
    has_component e cid (add_component e cid v s) = true
    ∧ get_component? e cid (add_component e cid v s) = some v
    ∧ has_component e cid (remove_component_ e cid (add_component e cid v s)) = false
    ∧ remove_component_ e cid s = s := by
  refine ⟨has_component_add_self e cid v s, ?_, ?_, remove_component_absent hnc⟩
  · exact get_component?_add_self hwf.2.1 hnc v
  · exact has_component_remove_self (regNodup_add_component hwf.1 e cid v) e cid

theorem component_add_get_remove_witness :
    has_entity 1 (add_component 1 0 10 (emptyState : State Nat Nat)) = true
    ∧ has_component 1 2 (add_component 1 0 10 (emptyState : State Nat Nat)) = false
    ∧ get_component? 1 2 (add_component 1 2 42
        (add_component 1 0 10 (emptyState : State Nat Nat))) = some 42 := by
  have h := component_add_get_remove
    (add_component 1 0 10 (emptyState : State Nat Nat)) 1 2 42
    (statewf_add_component statewf_empty 1 0 10) rfl (by decide)
  exact ⟨rfl, by decide, h.2.1⟩

/-- A queued attach whose entity is still alive is an ordinary
`add_component`. -/
theorem apply_delayed_attach {t : State V E} {e : Entity} {cid : CID} {v : V}
    (ht : has_entity e t = true) :
    apply_delayed t (e, cid, v) = add_component e cid v t := by
  unfold apply_delayed
  dsimp only
  rw [if_pos ht]

/-- Folding a queued attach list whose last entry targets a still-alive
entity ends with that component attached. -/
theorem has_component_foldl_delayed_last (t : State V E)
    (pre : List (Entity × CID × V)) (e : Entity) (cid : CID) (v : V)
    (halive : has_entity e t = true) :
    has_component e cid ((pre ++ [(e, cid, v)]).foldl apply_delayed t) = true := by
  rw [List.foldl_append]
  simp only [List.foldl_cons, List.foldl_nil]
  rw [apply_delayed_attach (has_entity_foldl_delayed e pre t halive)]
  exact has_component_add_self e cid v _

/-- Realizing the queued pulse list whose last entry targets a
still-alive entity ends with that component attached. -/
theorem has_component_update_begin_last (s' : State V E) (e : Entity) (cid : CID)
    (v : V) (hlast : ∃ pre, s'.delayed_functions_ = pre ++ [(e, cid, v)])
    (halive : has_entity e s' = true) :
    has_component e cid (update_begin s') = true := by
  obtain ⟨pre, hpre⟩ := hlast
  unfold update_begin
  dsimp only
  rw [hpre]
  exact has_component_foldl_delayed_last _ pre e cid v halive

/-- The per-entity tag sets stay duplicate-free across the start-of-tick
phase. -/
theorem regNodup_update_begin {s : State V E} (hnd : RegNodup s) :
    RegNodup (update_begin s) := by
  have h1 : RegNodup ({ s with
      current_events_map_ := s.next_events_map_
      next_events_map_ := fun _ => none
      current_entity_events_ := s.next_entity_events_
      next_entity_events_ := [] } : State V E) := hnd
  have h2 := regNodup_foldl_delayed h1 s.delayed_functions_
  intro e cids h
  exact h2 e cids h

/-- Detaching the recorded pulse list whose last entry is this pair ends
with the component absent. -/
theorem has_component_update_end_last (u : State V E) (e : Entity) (cid : CID)
    (hlast : ∃ pre, u.current_entity_events_ = pre ++ [(e, cid)])
    (hnd : RegNodup u) :
    has_component e cid (update_end u) = false := by
  obtain ⟨pre, hpre⟩ := hlast
  unfold update_end
  rw [hpre, List.foldl_append]
  simp only [List.foldl_cons, List.foldl_nil]
  exact has_component_remove_self (regNodup_foldl_remove hnd pre) e cid

/-- Claim C2: a pulse component queued by `add_entity_event` on a live
entity is still absent after queuing, is attached once the next tick's
`update` begins (before the systems run), and is detached again by the
end of that tick (inert systems), so it is absent from then on. -/
theorem pulse_component_one_tick (s : State V E) (e : Entity) (cid : CID) (v : V)
    (halive : has_entity e s = true) (hnc : has_component e cid s = false)
    (hnd : RegNodup s) :
    has_component e cid (add_entity_event e cid v s) = false
    ∧ has_component e cid (update_begin (add_entity_event e cid v s)) = true
    ∧ has_component e cid (update (fun _ t => t) (add_entity_event e cid v s)) = false := by
  refine ⟨hnc, ?_, ?_⟩
  · exact has_component_update_begin_last (add_entity_event e cid v s) e cid v
      ⟨s.delayed_functions_, rfl⟩ halive
  · unfold update
    rw [run_systems_id]
    apply has_component_update_end_last
    · obtain ⟨r, c, hub⟩ := update_begin_fields (add_entity_event e cid v s)
      rw [hub]
      exact ⟨s.next_entity_events_, rfl⟩
    · exact regNodup_update_begin hnd

theorem pulse_component_one_tick_witness :
    has_entity 1 (add_component 1 0 10 (emptyState : State Nat Nat)) = true
    ∧ has_component 1 2 (add_component 1 0 10 (emptyState : State Nat Nat)) = false
    ∧ has_component 1 2 (update_begin (add_entity_event 1 2 5
        (add_component 1 0 10 (emptyState : State Nat Nat)))) = true
    ∧ has_component 1 2 (update (fun _ t => t) (add_entity_event 1 2 5
        (add_component 1 0 10 (emptyState : State Nat Nat)))) = false := by
  have h := pulse_component_one_tick
    (add_component 1 0 10 (emptyState : State Nat Nat)) 1 2 5
    rfl (by decide) (regNodup_add_component statewf_empty.1 1 0 10)
  exact ⟨rfl, by decide, h.2.1, h.2.2⟩

/-- Claim C3: an event raised during a tick is invisible to `get_events`
for the rest of that tick and lands in the next buffer; after the next
`update` (inert systems) `get_events` yields exactly that event; after a
further `update` with no re-raise it yields nothing. -/
theorem event_one_tick_visibility (s : State V E) (eid : EID) (v : E)
    (hprev : (s.next_events_map_ eid).getD [] = []) :
    (get_events eid (add_event eid v s)).1 = (get_events eid s).1
    ∧ (add_event eid v s).next_events_map_ eid =
        some ((s.next_events_map_ eid).getD [] ++ [v])
    ∧ (get_events eid (update (fun _ t => t) (add_event eid v s))).1 = [v]
    ∧ (get_events eid (update (fun _ t => t)
        (get_events eid (update (fun _ t => t) (add_event eid v s))).2)).1 = [] := by
  refine ⟨rfl, by unfold add_event; dsimp only; rw [fupd_same], ?_, ?_⟩
  · show ((update (fun _ t => t) (add_event eid v s)).current_events_map_ eid).getD [] = [v]
    rw [(update_id_events (add_event eid v s)).1]
    unfold add_event
    dsimp only
    rw [fupd_same, hprev]
    rfl
  · show ((update (fun _ t => t)
      (get_events eid (update (fun _ t => t) (add_event eid v s))).2).current_events_map_
        eid).getD [] = []
    rw [(update_id_events _).1]
    have hnn : (get_events eid (update (fun _ t => t)
        (add_event eid v s))).2.next_events_map_ =
        (update (fun _ t => t) (add_event eid v s)).next_events_map_ := rfl
    rw [hnn, (update_id_events (add_event eid v s)).2]
    rfl

theorem event_one_tick_visibility_witness :
    ((emptyState : State Nat Nat).next_events_map_ 0).getD [] = []
    ∧ (get_events 0 (update (fun _ t => t)
        (add_event 0 7 (emptyState : State Nat Nat)))).1 = [7]
    ∧ (get_events 0 (update (fun _ t => t)
        (get_events 0 (update (fun _ t => t)
          (add_event 0 7 (emptyState : State Nat Nat)))).2)).1 = [] := by
  have h := event_one_tick_visibility (emptyState : State Nat Nat) 0 7 rfl
  exact ⟨rfl, h.2.2.1, h.2.2.2⟩

/-! ### Claim C8 machinery: `copy_entity` -/

theorem insertCID_absent {done : List CID} {cid : CID} (h : cid ∉ done) :
    insertCID done cid = done ++ [cid] := by
  unfold insertCID
  rw [if_neg (fun hc => h (contains_iff.mp hc))]

/-- A store that indexes an entity yields a value for it. -/
theorem get?_isSome_of_has {V : Type} {c : Container V} (hwf : Container.WF c)
    {e : Entity} (h : Container.has e c = true) :
    ∃ val, Container.get? e c = some val := by
  obtain ⟨⟨h1, _⟩, hl⟩ := hwf
  obtain ⟨idx, hidx⟩ := Option.isSome_iff_exists.mp h
  have hd := h1 e idx hidx
  have hlt : idx < c.entities_.dense.length := (List.getElem?_eq_some_iff.mp hd).1
  have hlt2 : idx < c.components_.length := by omega
  refine ⟨c.components_.get ⟨idx, hlt2⟩, ?_⟩
  unfold Container.get?
  rw [hidx]
  exact List.getElem?_eq_getElem hlt2

/-- One `copy_component_` call, spelled out on a destination already
registered and a source the store indexes. -/
theorem copy_component_step {t : State V E} {e ne : Entity} {cid : CID}
    {done : List CID} {c : Container V} {val : V}
    (hi : lookupEC t.entity_components_ ne = some done)
    (htc : t.cid2containers_ cid = some c)
    (hhase : Container.has e c = true)
    (hval : Container.get? e c = some val) :
    copy_component_ e ne cid t = { t with
      entity_components_ := setEC t.entity_components_ ne (insertCID done cid)
      cid2containers_ := fupd t.cid2containers_ cid
        (some (Container.add ne val c)) } := by
  unfold copy_component_
  rw [hi, htc]
  dsimp only
  unfold Container.copy
  rw [if_neg (by rw [hhase]; simp), hval]

/-- Writing through the copy's reference does not reach any other
entity's slot. -/
theorem container_write_other {V : Type} {c : Container V} (hwf : Container.WF c)
    {x ne : Entity} (hne : x ≠ ne) (w : V) :
    Container.get? x { c with components_ :=
        match c.entities_.sparse ne with
        | some idx => c.components_.set idx w
        | none => c.components_ } = Container.get? x c := by
  obtain ⟨⟨h1, h2⟩, hl⟩ := hwf
  unfold Container.get?
  dsimp only
  cases hx : c.entities_.sparse x with
  | none => rfl
  | some idxx =>
    cases hn : c.entities_.sparse ne with
    | none => rfl
    | some idxn =>
      have hdn := h1 ne idxn hn
      have hdx := h1 x idxx hx
      have hneq : idxx ≠ idxn := by
        intro hie
        subst hie
        rw [hdx] at hdn
        exact hne (Option.some.inj hdn)
      show (c.components_.set idxn w)[idxx]? = c.components_[idxx]?
      rw [List.getElem?_set, if_neg (fun h => hneq h.symm)]

theorem get_component?_write_other {s' : State V E}
    (hcw : ∀ k c, s'.cid2containers_ k = some c → Container.WF c)
    {x ne : Entity} (hne : x ≠ ne) (cid : CID) (w : V) :
    get_component? x cid (write_component ne cid w s') = get_component? x cid s' := by
  unfold write_component
  cases hq : s'.cid2containers_ cid with
  | none => rfl
  | some c =>
    dsimp only
    unfold get_component?
    dsimp only
    rw [fupd_same, hq]
    exact container_write_other (hcw cid c hq) hne w

/-- Dead-source branch of `copy_entity`: null handle, state untouched. -/
theorem copy_entity_dead {s : State V E} {e : Entity}
    (hdead : has_entity e s = false) :
    copy_entity e s = (NullEntity, s) := by
  unfold copy_entity
  rw [if_pos hdead]

/-- Live-source branch of `copy_entity`, spelled out. -/
theorem copy_entity_alive {s : State V E} {e : Entity}
    (halive : has_entity e s = true) :
    copy_entity e s = (s.next_entity_,
      ((lookupEC s.entity_components_ e).getD []).foldl
        (fun acc cid => copy_component_ e s.next_entity_ cid acc)
        { s with
          next_entity_ := (s.next_entity_ + 1) % 4294967296
          entity_components_ :=
            setEC s.entity_components_ s.next_entity_ [] }) := by
  unfold copy_entity
  rw [if_neg (by rw [halive]; simp)]
  rfl

/-- Fold invariant for `copy_entity`: after copying a prefix of the
source's tags into the fresh handle, the fresh handle's set is exactly
that prefix, every other registry entry is untouched, untouched stores
equal the originals, and each touched store is the original with the
source's value appended under the fresh handle. -/
theorem copy_components_invariant (s : State V E) (e ne : Entity)
    (hwf : StateWF s) {cids0 : List CID}
    (hl0 : lookupEC s.entity_components_ e = some cids0) :
    ∀ (rest done : List CID) (t : State V E),
      (done ++ rest).Nodup →
      (∀ k, k ∈ done ∨ k ∈ rest → k ∈ cids0) →
      lookupEC t.entity_components_ ne = some done →
      (∀ x, x ≠ ne → lookupEC t.entity_components_ x = lookupEC s.entity_components_ x) →
      (∀ k, k ∉ done → t.cid2containers_ k = s.cid2containers_ k) →
      (∀ k, k ∈ done → ∃ c val, s.cid2containers_ k = some c ∧
          Container.get? e c = some val ∧
          t.cid2containers_ k = some (Container.add ne val c)) →
      lookupEC (rest.foldl (fun acc cid => copy_component_ e ne cid acc)
          t).entity_components_ ne = some (done ++ rest)
      ∧ (∀ x, x ≠ ne → lookupEC (rest.foldl (fun acc cid => copy_component_ e ne cid acc)
          t).entity_components_ x = lookupEC s.entity_components_ x)
      ∧ (∀ k, k ∉ done ++ rest → (rest.foldl (fun acc cid => copy_component_ e ne cid acc)
          t).cid2containers_ k = s.cid2containers_ k)
      ∧ (∀ k, k ∈ done ++ rest → ∃ c val, s.cid2containers_ k = some c ∧
          Container.get? e c = some val ∧
          (rest.foldl (fun acc cid => copy_component_ e ne cid acc)
            t).cid2containers_ k = some (Container.add ne val c)) := by
  obtain ⟨hnd, hcw, hrc, hcr⟩ := hwf
  intro rest
  induction rest with
  | nil =>
    intro done t hnodup hsub hi hii hiii hiv
    refine ⟨by simpa using hi, hii, ?_, ?_⟩
    · intro k hk
      exact hiii k (by simpa using hk)
    · intro k hk
      exact hiv k (by simpa using hk)
  | cons cid rest ih =>
    intro done t hnodup hsub hi hii hiii hiv
    have hparts := List.nodup_cons.mp (List.nodup_middle.mp hnodup)
    have hcidout : cid ∉ done ++ rest := hparts.1
    have hcidd : cid ∉ done := fun h => hcidout (List.mem_append.mpr (Or.inl h))
    have hcidc : cid ∈ cids0 := hsub cid (Or.inr (List.mem_cons_self cid rest))
    obtain ⟨c, hck, hhase⟩ := hrc e cids0 cid hl0 hcidc
    obtain ⟨val, hval⟩ := get?_isSome_of_has (hcw cid c hck) hhase
    have htc : t.cid2containers_ cid = some c := by
      rw [hiii cid hcidd]
      exact hck
    have hstep := copy_component_step hi htc hhase hval
    rw [List.foldl_cons, hstep]
    have hset := insertCID_absent hcidd
    have happ : done ++ cid :: rest = (done ++ [cid]) ++ rest := by
      rw [List.append_assoc, List.singleton_append]
    rw [happ]
    refine ih (done ++ [cid]) _ ?_ ?_ ?_ ?_ ?_ ?_
    · rw [← happ]
      exact hnodup
    · intro k hk
      refine hsub k ?_
      rcases hk with hk | hk
      · rcases List.mem_append.mp hk with hk | hk
        · exact Or.inl hk
        · exact Or.inr (by simp at hk; simp [hk])
      · exact Or.inr (List.mem_cons_of_mem cid hk)
    · show lookupEC (setEC t.entity_components_ ne (insertCID done cid)) ne = _
      rw [lookupEC_setEC_self, hset]
    · intro x hx
      show lookupEC (setEC t.entity_components_ ne (insertCID done cid)) x = _
      rw [lookupEC_setEC_ne hx]
      exact hii x hx
    · intro k hk
      have hkcid : k ≠ cid := fun h => hk (h ▸ List.mem_append.mpr (Or.inr (by simp)))
      have hkd : k ∉ done := fun h => hk (List.mem_append.mpr (Or.inl h))
      show fupd t.cid2containers_ cid (some (Container.add ne val c)) k = _
      rw [fupd_ne _ _ _ _ hkcid]
      exact hiii k hkd
    · intro k hk
      by_cases hkc : k = cid
      · subst hkc
        refine ⟨c, val, hck, hval, ?_⟩
        show fupd t.cid2containers_ k (some (Container.add ne val c)) k = _
        rw [fupd_same]
      · have hkd : k ∈ done := by
          rcases List.mem_append.mp hk with hk | hk
          · exact hk
          · simp at hk
            exact absurd hk hkc
        obtain ⟨c1, v1, hc1, hv1, ht1⟩ := hiv k hkd
        refine ⟨c1, v1, hc1, hv1, ?_⟩
        show fupd t.cid2containers_ cid (some (Container.add ne val c)) k = _
        rw [fupd_ne _ _ _ _ hkc]
        exact ht1

/-- Registering a handle preserves the coherence invariant. -/
theorem statewf_add_entity_at {s : State V E} (hwf : StateWF s) (e : Entity) :
    StateWF (add_entity_at e s) := by
  obtain ⟨hnd, hcw, hrc, hcr⟩ := hwf
  unfold add_entity_at
  dsimp only
  by_cases hp : (lookupEC s.entity_components_ e).isSome
  · rw [if_pos hp]
    exact ⟨hnd, hcw, hrc, hcr⟩
  · rw [if_neg hp]
    have hl : lookupEC s.entity_components_ e = none := by
      cases hq : lookupEC s.entity_components_ e with
      | none => rfl
      | some cs => simp [hq] at hp
    refine ⟨?_, hcw, ?_, ?_⟩
    · intro x cids hx
      by_cases hxe : x = e
      · subst hxe
        rw [show lookupEC (s.entity_components_ ++ [(x, [])]) x = some [] from by
          rw [lookupEC_append_of_none hl]
          simp [lookupEC]] at hx
        cases hx
        exact List.nodup_nil
      · rw [lookupEC_append_single_ne hxe] at hx
        exact hnd x cids hx
    · intro x cids k hx hk
      by_cases hxe : x = e
      · subst hxe
        rw [show lookupEC (s.entity_components_ ++ [(x, [])]) x = some [] from by
          rw [lookupEC_append_of_none hl]
          simp [lookupEC]] at hx
        cases hx
        simp at hk
      · rw [lookupEC_append_single_ne hxe] at hx
        exact hrc x cids k hx hk
    · intro k c x hk hx
      obtain ⟨cids, hl1, hm1⟩ := hcr k c x hk hx
      have hxe : x ≠ e := by
        intro hxe
        subst hxe
        rw [hl1] at hl
        cases hl
      exact ⟨cids, by rw [lookupEC_append_single_ne hxe]; exact hl1, hm1⟩

/-- Claim C8: copying a dead handle returns the null entity and changes
nothing; copying a live entity returns a fresh handle distinct from the
source and from every live entity, whose tag set and component values
equal the source's with the source untouched — and writing a component
of the copy afterwards never changes what the source reads. -/
theorem copy_entity_duplicates (s : State V E) (e : Entity) (hwf : StateWF s)
    (hfresh : ∀ x, has_entity x s = true → x < s.next_entity_) :
    (has_entity e s = false → copy_entity e s = (NullEntity, s))
    ∧ (has_entity e s = true →
        (copy_entity e s).1 ≠ e
        ∧ (∀ x, has_entity x s = true → (copy_entity e s).1 ≠ x)
        ∧ lookupEC (copy_entity e s).2.entity_components_ (copy_entity e s).1 =
            lookupEC s.entity_components_ e
        ∧ (∀ cid, cid ∈ (lookupEC s.entity_components_ e).getD [] →
            get_component? (copy_entity e s).1 cid (copy_entity e s).2 =
              get_component? e cid s)
        ∧ (∀ cid, get_component? e cid (copy_entity e s).2 = get_component? e cid s)
        ∧ (∀ cid w, get_component? e cid
            (write_component (copy_entity e s).1 cid w (copy_entity e s).2) =
              get_component? e cid (copy_entity e s).2)) := by
  obtain ⟨hnd, hcw, hrc, hcr⟩ := hwf
  constructor
  · intro hdead
    exact copy_entity_dead hdead
  · intro halive
    obtain ⟨cids0, hl0⟩ := Option.isSome_iff_exists.mp
      (show (lookupEC s.entity_components_ e).isSome = true from halive)
    have hene : e ≠ s.next_entity_ := Nat.ne_of_lt (hfresh e halive)
    have hlne : lookupEC s.entity_components_ s.next_entity_ = none := by
      cases hq : lookupEC s.entity_components_ s.next_entity_ with
      | none => rfl
      | some cs =>
        have : s.next_entity_ < s.next_entity_ :=
          hfresh s.next_entity_ (by unfold has_entity; rw [hq]; rfl)
        omega
    rw [copy_entity_alive halive]
    dsimp only
    simp only [hl0, Option.getD_some]
    have hinv := copy_components_invariant s e s.next_entity_ ⟨hnd, hcw, hrc, hcr⟩
      hl0 cids0 []
      { s with
        next_entity_ := (s.next_entity_ + 1) % 4294967296
        entity_components_ := setEC s.entity_components_ s.next_entity_ [] }
      (by simpa using hnd e cids0 hl0)
      (by
        intro k hk
        rcases hk with hk | hk
        · simp at hk
        · exact hk)
      (by
        show lookupEC (setEC s.entity_components_ s.next_entity_ []) s.next_entity_ =
          some []
        exact lookupEC_setEC_self _ _ _)
      (by
        intro x hx
        show lookupEC (setEC s.entity_components_ s.next_entity_ []) x =
          lookupEC s.entity_components_ x
        exact lookupEC_setEC_ne hx _ _)
      (fun k _ => rfl)
      (by
        intro k hk
        simp at hk)
    obtain ⟨hI, hII, hIII, hIV⟩ := hinv
    simp only [List.nil_append] at hI hIII hIV
    have hnofresh : ∀ k c, s.cid2containers_ k = some c →
        Container.has s.next_entity_ c = false := by
      intro k c hk
      cases hh : Container.has s.next_entity_ c with
      | false => rfl
      | true =>
        obtain ⟨cids1, hl1, _⟩ := hcr k c s.next_entity_ hk hh
        rw [hl1] at hlne
        cases hlne
    have hfcw : ∀ k c, (cids0.foldl
        (fun acc cid => copy_component_ e s.next_entity_ cid acc)
        { s with
          next_entity_ := (s.next_entity_ + 1) % 4294967296
          entity_components_ := setEC s.entity_components_ s.next_entity_ [] }
        ).cid2containers_ k = some c → Container.WF c := by
      intro k c hk
      by_cases hkc : k ∈ cids0
      · obtain ⟨c1, v1, hc1, hv1, ht1⟩ := hIV k hkc
        rw [ht1] at hk
        cases hk
        exact Container.wf_add_store (hcw k c1 hc1) v1 (hnofresh k c1 hc1)
      · rw [hIII k hkc] at hk
        exact hcw k c hk
    refine ⟨Ne.symm hene, ?_, ?_, ?_, ?_, ?_⟩
    · intro x hx
      exact Ne.symm (Nat.ne_of_lt (hfresh x hx))
    · rw [hI]
    · intro cid hcid
      obtain ⟨c1, v1, hc1, hv1, ht1⟩ := hIV cid hcid
      unfold get_component?
      rw [ht1, hc1]
      dsimp only
      rw [hv1]
      exact Container.get?_add_self (hcw cid c1 hc1) s.next_entity_ v1
    · intro cid
      by_cases hkc : cid ∈ cids0
      · obtain ⟨c1, v1, hc1, hv1, ht1⟩ := hIV cid hkc
        unfold get_component?
        rw [ht1, hc1]
        dsimp only
        exact Container.get?_add_ne (hcw cid c1 hc1) hene v1
      · unfold get_component?
        rw [hIII cid hkc]
    · intro cid w
      exact get_component?_write_other hfcw hene cid w

theorem copy_entity_duplicates_witness :
    has_entity 1 (add_component 1 0 10 (add_entity (emptyState : State Nat Nat)).2) = true
    ∧ (copy_entity 1 (add_component 1 0 10
        (add_entity (emptyState : State Nat Nat)).2)).1 ≠ 1
    ∧ get_component? (copy_entity 1 (add_component 1 0 10
          (add_entity (emptyState : State Nat Nat)).2)).1 0
        (copy_entity 1 (add_component 1 0 10
          (add_entity (emptyState : State Nat Nat)).2)).2 =
      get_component? 1 0 (add_component 1 0 10
        (add_entity (emptyState : State Nat Nat)).2) := by
  have hwf0 : StateWF (add_component 1 0 10 (add_entity (emptyState : State Nat Nat)).2) :=
    statewf_add_component (statewf_add_entity_at statewf_empty 1) 1 0 10
  have hfr : ∀ x : Nat, has_entity x (add_component 1 0 10
      (add_entity (emptyState : State Nat Nat)).2) = true →
      x < (add_component 1 0 10 (add_entity (emptyState : State Nat Nat)).2).next_entity_ := by
    intro x hx
    have hreg : (add_component 1 0 10
        (add_entity (emptyState : State Nat Nat)).2).entity_components_ = [(1, [0])] := rfl
    have hnx : (add_component 1 0 10
        (add_entity (emptyState : State Nat Nat)).2).next_entity_ = 2 := rfl
    rw [hnx]
    unfold has_entity at hx
    rw [hreg] at hx
    by_cases h1 : (1 : Nat) = x
    · omega
    · rw [show lookupEC [(1, [0])] x = none from by simp [lookupEC, h1]] at hx
      cases hx
  have h := copy_entity_duplicates
    (add_component 1 0 10 (add_entity (emptyState : State Nat Nat)).2) 1 hwf0 hfr
  have h2 := h.2 rfl
  exact ⟨rfl, h2.1, h2.2.2.2.1 0 (by decide)⟩

end WheelECS
